import Mathlib

/-!
Verification of the stream policy engine of `recode_video`.

The definitions below are a shallow embedding of `src/recode_video/recode_video.py`,
mainly of `handle_file` (probe classification, plan accumulation, stable sort,
ffmpeg argument compilation, and the temp-file transform step).

Conventions of the embedding:
* A probed stream record is a `ProbedStream` with the three fields the code reads:
  `codec_type`, `codec_name` and `disposition.default` (as the `Nat` 0/1 the probe
  returns, field `disposition_default`).
* Python option strings such as `"-c:{output_index}"` are `Arg.tmpl "-c:"`:
  a template whose trailing stream-index placeholder is rendered by
  `Arg.render i` as the template text followed by the decimal index, exactly
  what `str.format(output_index=i)` produces on these strings.  Plain option
  strings are `Arg.lit`.
* Raising an exception is returning `Except.error` with the corresponding
  error kind; the messages' string payloads are dropped.
* `list.sort(key=lambda x: x.input_index)` (a stable ascending sort by key) is
  embedded as `List.insertionSort` with the key comparison, which is likewise
  a stable ascending sort by the same key, hence extensionally equal.
* `sorted(subtitle_codecs)` (Python's lexicographic string sort) is embedded as
  an insertion sort over the code-point lexicographic order `strLe`.
-/

/-- One probed stream record, with the fields `handle_file` reads:
`stream["codec_type"]`, `stream["codec_name"]`, `stream["disposition"]["default"]`. -/
structure ProbedStream where
  codec_type : String
  codec_name : String
  disposition_default : Nat
  deriving DecidableEq

/-- One ffmpeg option token of an `OutputStream.options` list.  `Arg.tmpl s`
stands for the Python string `s + "{output_index}"`; `Arg.lit s` for the plain
string `s`. -/
inductive Arg where
  | lit : String → Arg
  | tmpl : String → Arg
  deriving DecidableEq

/-- `opt.format(output_index=i)` on the option strings used by the code. -/
def Arg.render (i : Nat) : Arg → String
  | .lit s => s
  | .tmpl s => s ++ toString i

/-- The `OutputStream` dataclass of the source. -/
structure OutputStream where
  input_index : Nat
  options : List Arg
  deriving DecidableEq

/-- The error kinds `handle_file` can raise during classification. -/
inductive Err where
  | noVideoStream
  | unhandledVideoCodec
  | unhandledSubtitleCodecs
  | unknownDataCodec
  | unknownStreamType
  deriving DecidableEq

/-- Options of the video transcode branch (lines 113-122 of the source):
constant-rate-factor 20, medium preset, `+default` disposition. -/
def transcodeVideoOpts : List Arg :=
  [.tmpl "-c:", .lit "libx264", .tmpl "-crf:", .lit "20",
   .tmpl "-preset:", .lit "medium", .tmpl "-disposition:", .lit "+default"]

/-- Options of the plain copy branches: `["-c:{output_index}", "copy"]`. -/
def copyOpts : List Arg := [.tmpl "-c:", .lit "copy"]

/-- Options of the convert-to-srt branches (mov_text and single webvtt/ass):
convert to srt and set the default disposition. -/
def srtDefaultOpts : List Arg :=
  [.tmpl "-c:", .lit "srt", .tmpl "-disposition:", .lit "+default"]

/-- Options of the copy-the-original half of the single webvtt/ass rule:
copy and clear the default disposition. -/
def copyClearDefaultOpts : List Arg :=
  [.tmpl "-c:", .lit "copy", .tmpl "-disposition:", .lit "-default"]

/-- Options of the webvtt/ass-plus-subrip rule: copy with the given
disposition value (`"+default"` or `"-default"`). -/
def copyWithDisposition (d : String) : List Arg :=
  [.tmpl "-c:", .lit "copy", .tmpl "-disposition:", .lit d]

/-- `video_streams` (line 82): the streams whose `codec_type` is `video`. -/
def video_streams (streams : List ProbedStream) : List ProbedStream :=
  streams.filter (fun s => s.codec_type == "video")

/-- `subtitle_streams` (line 89). -/
def subtitle_streams (streams : List ProbedStream) : List ProbedStream :=
  streams.filter (fun s => s.codec_type == "subtitle")

/-- `subtitle_codecs` (line 92): codec names of all subtitle streams, in probe order. -/
def subtitle_codecs (streams : List ProbedStream) : List String :=
  (subtitle_streams streams).map (fun s => s.codec_name)

/-- `default_subtitle_streams` (line 93): subtitle streams whose
`disposition.default` is 1. -/
def default_subtitle_streams (streams : List ProbedStream) : List ProbedStream :=
  (subtitle_streams streams).filter (fun s => s.disposition_default == 1)

/-- `default_subtitle_codecs` (line 98). -/
def default_subtitle_codecs (streams : List ProbedStream) : List String :=
  (default_subtitle_streams streams).map (fun s => s.codec_name)

/-- Code-point lexicographic order on character lists, the order Python's
`sorted` uses on these ASCII codec-name strings. -/
def charListLe : List Char → List Char → Bool
  | [], _ => true
  | _ :: _, [] => false
  | a :: as, b :: bs => if a < b then true else if b < a then false else charListLe as bs

/-- Lexicographic order on strings. -/
def strLe (a b : String) : Bool := charListLe a.data b.data

/-- Insert into a sorted string list, keeping earlier elements first among equals. -/
def orderedInsertStr (a : String) : List String → List String
  | [] => [a]
  | b :: l => if strLe a b then a :: b :: l else b :: orderedInsertStr a l

/-- Python's `sorted` on a list of strings (stable ascending sort). -/
def sortedStrs : List String → List String
  | [] => []
  | b :: l => orderedInsertStr b (sortedStrs l)

/-- The body of the per-stream classification loop of `handle_file`
(lines 105-275), for the stream at position `stream_index`.  `subCodecs` and
`defSubCodecs` are the precomputed `subtitle_codecs` and
`default_subtitle_codecs` of the whole file.  Returns the contribution to
`needs_run` and the `OutputStream` entries appended for this stream, or the
error the corresponding branch raises. -/
def classifyStream (subCodecs defSubCodecs : List String) (stream_index : Nat)
    (stream : ProbedStream) : Except Err (Bool × List OutputStream) :=
  if stream.codec_type == "video" then
    if stream.codec_name == "vc1" || stream.codec_name == "hevc" ||
        stream.codec_name == "vp9" || stream.codec_name == "av1" then
      .ok (true, [⟨stream_index, transcodeVideoOpts⟩])
    else if stream.codec_name == "h264" || stream.codec_name == "mjpeg" ||
        stream.codec_name == "png" then
      .ok (false, [⟨stream_index, copyOpts⟩])
    else
      .error .unhandledVideoCodec
  else if stream.codec_type == "audio" then
    .ok (false, [⟨stream_index, copyOpts⟩])
  else if stream.codec_type == "subtitle" then
    if stream.codec_name == "mov_text" then
      .ok (true, [⟨stream_index, srtDefaultOpts⟩])
    else if subCodecs == ["webvtt"] || subCodecs == ["ass"] then
      .ok (true, [⟨stream_index, srtDefaultOpts⟩, ⟨stream_index, copyClearDefaultOpts⟩])
    else if (subCodecs == ["webvtt", "subrip"] && defSubCodecs == ["webvtt"]) ||
        (subCodecs == ["ass", "subrip"] && defSubCodecs == ["ass"]) then
      .ok (true, [⟨stream_index,
        copyWithDisposition (if stream.codec_name == "subrip" then "+default" else "-default")⟩])
    else if ((sortedStrs subCodecs == ["subrip", "webvtt"] ||
        sortedStrs subCodecs == ["ass", "subrip"]) ||
        subCodecs == ["subrip"]) && defSubCodecs == ["subrip"] then
      .ok (false, [⟨stream_index, copyOpts⟩])
    else if subCodecs.all (fun c => c == "subrip" || c == "hdmv_pgs_subtitle") then
      .ok (false, [⟨stream_index, copyOpts⟩])
    else
      .error .unhandledSubtitleCodecs
  else if stream.codec_type == "attachment" then
    .ok (false, [⟨stream_index, copyOpts⟩])
  else if stream.codec_type == "data" then
    if stream.codec_name == "bin_data" then
      .ok (true, [])
    else
      .error .unknownDataCodec
  else
    .error .unknownStreamType

/-- The whole classification loop `for stream_index, stream in enumerate(streams)`:
OR-accumulates `needs_run` and appends the emitted `OutputStream` entries,
stopping at the first raised error. -/
def classifyAll (subCodecs defSubCodecs : List String) :
    List (Nat × ProbedStream) → Except Err (Bool × List OutputStream)
  | [] => .ok (false, [])
  | p :: rest =>
    match classifyStream subCodecs defSubCodecs p.1 p.2 with
    | .error e => .error e
    | .ok (f, es) =>
      match classifyAll subCodecs defSubCodecs rest with
      | .error e => .error e
      | .ok (f2, es2) => .ok (f || f2, es ++ es2)

/-- `output_streams.sort(key=lambda x: x.input_index)` (line 280): a stable
ascending sort by `input_index`. -/
def sortPlan (plan : List OutputStream) : List OutputStream :=
  plan.insertionSort (fun a b => a.input_index ≤ b.input_index)

/-- The pure decision part of `handle_file` (lines 80-280): reject files
without a video stream, classify every stream in probe order, and sort the
accumulated plan by source input index.  Returns `needs_run` and the sorted
plan. -/
def evaluate (streams : List ProbedStream) : Except Err (Bool × List OutputStream) :=
  if (video_streams streams).length == 0 then
    .error .noVideoStream
  else
    match classifyAll (subtitle_codecs streams) (default_subtitle_codecs streams)
        streams.enum with
    | .error e => .error e
    | .ok (needs_run, output_streams) => .ok (needs_run, sortPlan output_streams)

/-- The ffmpeg argument compilation loop (lines 281-289): `-i` and the input
path, then for each plan entry in order a `-map 0:<input_index>` pair followed
by its options with the `{output_index}` placeholder rendered as the entry's
position in the plan. -/
def compile_ffmpeg_args (in_path : String) (output_streams : List OutputStream) :
    List String :=
  ["-i", in_path] ++
    output_streams.enum.flatMap
      (fun p => ["-map", "0:" ++ toString p.2.input_index] ++
        p.2.options.map (Arg.render p.1))

/-- The per-entry argument blocks written out with an explicit output position
counter: entry at position `i` contributes its `-map` pair and its options
rendered at output index `i`.  This is the specification-side reading of the
compiler contract, compared with `compile_ffmpeg_args` in claim C7. -/
def argBlocksFrom (i : Nat) : List OutputStream → List String
  | [] => []
  | e :: rest =>
    ("-map" :: ("0:" ++ toString e.input_index) :: e.options.map (Arg.render i)) ++
      argBlocksFrom (i + 1) rest

/-- Specification-side compiler: `-i`, the input path, then the positional
argument blocks starting at output index 0. -/
def compile_ffmpeg_args_indexed (in_path : String) (plan : List OutputStream) :
    List String :=
  ["-i", in_path] ++ argBlocksFrom 0 plan

/-- A file system state: which paths hold which (abstract) content. -/
def FS : Type := String → Option Nat

/-- Create or overwrite the file at `p` with content `c`. -/
def fsWrite (fs : FS) (p : String) (c : Nat) : FS :=
  fun q => if q = p then some c else fs q

/-- `Path.unlink`. -/
def fsRemove (fs : FS) (p : String) : FS :=
  fun q => if q = p then none else fs q

/-- `shutil.move src dst` for distinct paths: the content leaves `src` and
lands at `dst`. -/
def fsMove (fs : FS) (src dst : String) : FS :=
  fun q => if q = src then none else if q = dst then fs src else fs q

/-- Outcome of the transform step: either the external tool exited non-zero
(`subprocess.run(..., check=True)` raised) or the move/unlink epilogue ran. -/
inductive TransformOutcome where
  | transcodeFailure : FS → TransformOutcome
  | success : FS → TransformOutcome

/-- The transform step of `handle_file` (lines 291-310): create the temporary
file, invoke ffmpeg into it (`exit_ok` says whether ffmpeg exited zero, in
which case it wrote `content` to the temporary path), move the temporary file
onto the output path, and unlink the input only when it differs from the
output path and the output path exists. -/
def run_transform (fs : FS) (in_path out_path temp_path : String)
    (exit_ok : Bool) (content : Nat) : TransformOutcome :=
  let fs0 := fsWrite fs temp_path 0
  if exit_ok then
    let fs1 := fsWrite fs0 temp_path content
    let fs2 := fsMove fs1 temp_path out_path
    if in_path ≠ out_path ∧ (fs2 out_path).isSome then
      .success (fsRemove fs2 in_path)
    else
      .success fs2
  else
    .transcodeFailure fs0

/-- Outcome of `handle_file` on one file: a classification error (file left
as it was), an early return because `needs_run` is false (file left as it
was, no arguments compiled), a failed transform, or a completed transform.
The compiled argument list is carried in the outcomes that reach the
transform step. -/
inductive HandleOutcome where
  | evalError : Err → FS → HandleOutcome
  | skipped : FS → HandleOutcome
  | transcodeFailure : List String → FS → HandleOutcome
  | done : List String → FS → HandleOutcome

/-- `handle_file` end to end over the abstract file system: classify, return
immediately when no transform is needed, otherwise compile the ffmpeg
arguments and run the transform step. -/
def handle_file (streams : List ProbedStream) (fs : FS)
    (in_path out_path temp_path : String) (exit_ok : Bool) (content : Nat) :
    HandleOutcome :=
  match evaluate streams with
  | .error e => .evalError e fs
  | .ok (needs_run, output_streams) =>
    if needs_run then
      let args := compile_ffmpeg_args in_path output_streams
      match run_transform fs in_path out_path temp_path exit_ok content with
      | .transcodeFailure fs2 => .transcodeFailure args fs2
      | .success fs2 => .done args fs2
    else
      .skipped fs

/-! ### The post-transform stream set (claim C8)

The transcode collaborator is external, so the stream set it produces is
modelled from the spec's reading of the plan (claim C8's wording): a copied
stream keeps its codec and default flag, a libx264 transcode probes
afterwards as h264, a subtitle converted to srt probes as subrip, a
`+default`/`-default` disposition option sets the default flag to 1/0, and
streams without plan entries (dropped data streams) are absent. -/

/-- The value following the `-c:{output_index}` codec-selection token of an
option list (every emitted option list starts with it). -/
def optCodecVal : List Arg → Option String
  | .tmpl "-c:" :: .lit c :: _ => some c
  | _ => none

/-- The value following the `-disposition:{output_index}` token of an option
list, if any. -/
def optDispositionVal : List Arg → Option String
  | [] => none
  | .tmpl "-disposition:" :: .lit d :: _ => some d
  | _ :: rest => optDispositionVal rest

/-- The probed stream one plan entry yields after the transform. -/
def applyEntry (streams : List ProbedStream) (e : OutputStream) : ProbedStream :=
  { codec_type := (streams.getD e.input_index ⟨"", "", 0⟩).codec_type
    codec_name :=
      match optCodecVal e.options with
      | some "libx264" => "h264"
      | some "srt" => "subrip"
      | _ => (streams.getD e.input_index ⟨"", "", 0⟩).codec_name
    disposition_default :=
      match optDispositionVal e.options with
      | some "+default" => 1
      | some "-default" => 0
      | _ => (streams.getD e.input_index ⟨"", "", 0⟩).disposition_default }

/-- The post-transform stream set of a whole plan, in plan order. -/
def applyPlan (streams : List ProbedStream) (plan : List OutputStream) :
    List ProbedStream :=
  plan.map (applyEntry streams)

/-- The streams one source stream contributes to the post-transform set,
by classification branch (mirrors `classifyStream` branch for branch). -/
def postOfStream (L D : List String) (s : ProbedStream) : List ProbedStream :=
  if s.codec_type == "video" then
    if s.codec_name == "vc1" || s.codec_name == "hevc" ||
        s.codec_name == "vp9" || s.codec_name == "av1" then
      [⟨s.codec_type, "h264", 1⟩]
    else if s.codec_name == "h264" || s.codec_name == "mjpeg" ||
        s.codec_name == "png" then
      [s]
    else []
  else if s.codec_type == "audio" then
    [s]
  else if s.codec_type == "subtitle" then
    if s.codec_name == "mov_text" then
      [⟨s.codec_type, "subrip", 1⟩]
    else if L == ["webvtt"] || L == ["ass"] then
      [⟨s.codec_type, "subrip", 1⟩, ⟨s.codec_type, s.codec_name, 0⟩]
    else if (L == ["webvtt", "subrip"] && D == ["webvtt"]) ||
        (L == ["ass", "subrip"] && D == ["ass"]) then
      [⟨s.codec_type, s.codec_name, if s.codec_name == "subrip" then 1 else 0⟩]
    else if ((sortedStrs L == ["subrip", "webvtt"] ||
        sortedStrs L == ["ass", "subrip"]) ||
        L == ["subrip"]) && D == ["subrip"] then
      [s]
    else if L.all (fun c => c == "subrip" || c == "hdmv_pgs_subtitle") then
      [s]
    else []
  else if s.codec_type == "attachment" then
    [s]
  else
    []

/-- The conjunction of rerun conditions on a post-transform stream list:
subtitle rules 2 and 3 fail and rule 4 or 5 holds for its codec lists. -/
def rerunConds (post : List ProbedStream) : Prop :=
  ((subtitle_codecs post == ["webvtt"] || subtitle_codecs post == ["ass"]) = false) ∧
  (((subtitle_codecs post == ["webvtt", "subrip"] &&
      default_subtitle_codecs post == ["webvtt"]) ||
    (subtitle_codecs post == ["ass", "subrip"] &&
      default_subtitle_codecs post == ["ass"])) = false) ∧
  (((((sortedStrs (subtitle_codecs post) == ["subrip", "webvtt"] ||
      sortedStrs (subtitle_codecs post) == ["ass", "subrip"]) ||
      subtitle_codecs post == ["subrip"]) &&
      default_subtitle_codecs post == ["subrip"]) ||
    (subtitle_codecs post).all (fun c => c == "subrip" || c == "hdmv_pgs_subtitle"))
    = true)

/-! ### Structural lemmas about the classification fold -/

theorem classifyStream_index {L D : List String} {i : Nat} {s : ProbedStream}
    {f : Bool} {es : List OutputStream} (h : classifyStream L D i s = .ok (f, es)) :
    ∀ e ∈ es, e.input_index = i := by
  unfold classifyStream at h
  repeat' split at h
  all_goals
    first
    | exact Except.noConfusion h
    | (rw [Except.ok.injEq, Prod.mk.injEq] at h
       obtain ⟨h1, h2⟩ := h
       subst h2
       simp)

theorem classifyAll_ok_forall {L D : List String} {pairs : List (Nat × ProbedStream)}
    {f : Bool} {es : List OutputStream}
    (h : classifyAll L D pairs = .ok (f, es)) :
    ∀ p ∈ pairs, ∃ r, classifyStream L D p.1 p.2 = .ok r := by
  induction pairs generalizing f es with
  | nil => simp
  | cons q rest ih =>
    unfold classifyAll at h
    split at h
    · exact absurd h (by simp)
    · split at h
      · exact absurd h (by simp)
      · rename_i f1 es1 hq r2 f2 es2 hrest
        intro p hp
        rcases List.mem_cons.mp hp with rfl | hp
        · exact ⟨_, hq⟩
        · exact ih hrest p hp

theorem classifyAll_error_of_mem {L D : List String} {pairs : List (Nat × ProbedStream)}
    {p : Nat × ProbedStream} {e : Err} (hp : p ∈ pairs)
    (he : classifyStream L D p.1 p.2 = .error e) :
    ∀ f es, classifyAll L D pairs ≠ .ok (f, es) := by
  intro f es h
  obtain ⟨r, hr⟩ := classifyAll_ok_forall h p hp
  rw [he] at hr
  exact Except.noConfusion hr

theorem classifyAll_force {L D : List String} {pairs : List (Nat × ProbedStream)}
    {p : Nat × ProbedStream} {es1 : List OutputStream} {f : Bool} {es : List OutputStream}
    (hp : p ∈ pairs) (hf : classifyStream L D p.1 p.2 = .ok (true, es1))
    (h : classifyAll L D pairs = .ok (f, es)) : f = true := by
  induction pairs generalizing f es with
  | nil => simp at hp
  | cons q rest ih =>
    unfold classifyAll at h
    split at h
    · exact absurd h (by simp)
    · split at h
      · exact absurd h (by simp)
      · rename_i f1 es1' hq r2 f2 es2 hrest
        rcases List.mem_cons.mp hp with rfl | hp
        · rw [hf] at hq
          injection hq with hq
          injection hq with hq1 hq2
          injection h with h
          injection h with hb he
          subst hb
          rw [← hq1]
          simp
        · injection h with h
          injection h with hb he
          subst hb
          rw [ih hp hrest]
          simp

theorem classifyAll_indices {L D : List String} {pairs : List (Nat × ProbedStream)}
    {f : Bool} {es : List OutputStream}
    (h : classifyAll L D pairs = .ok (f, es)) :
    ∀ e ∈ es, ∃ p ∈ pairs, e.input_index = p.1 := by
  induction pairs generalizing f es with
  | nil =>
    unfold classifyAll at h
    injection h with h
    injection h with h1 h2
    subst h2
    simp
  | cons q rest ih =>
    unfold classifyAll at h
    split at h
    · exact absurd h (by simp)
    · split at h
      · exact absurd h (by simp)
      · rename_i f1 es1 hq r2 f2 es2 hrest
        injection h with h
        injection h with hb he
        subst he
        intro e hmem
        rcases List.mem_append.mp hmem with h1 | h2
        · exact ⟨q, List.mem_cons_self q rest, classifyStream_index hq e h1⟩
        · obtain ⟨p, hp, hpe⟩ := ih hrest e h2
          exact ⟨p, List.mem_cons_of_mem q hp, hpe⟩

theorem classifyAll_sorted {L D : List String} {pairs : List (Nat × ProbedStream)}
    {f : Bool} {es : List OutputStream}
    (hp : pairs.Pairwise (fun p q => p.1 ≤ q.1))
    (h : classifyAll L D pairs = .ok (f, es)) :
    es.Pairwise (fun a b => a.input_index ≤ b.input_index) := by
  induction pairs generalizing f es with
  | nil =>
    unfold classifyAll at h
    injection h with h
    injection h with h1 h2
    subst h2
    simp
  | cons q rest ih =>
    unfold classifyAll at h
    split at h
    · exact absurd h (by simp)
    · split at h
      · exact absurd h (by simp)
      · rename_i f1 es1 hq r2 f2 es2 hrest
        injection h with h
        injection h with hb he
        subst he
        rw [List.pairwise_cons] at hp
        apply List.pairwise_append.mpr
        refine ⟨?_, ih hp.2 hrest, ?_⟩
        · apply List.pairwise_of_forall_mem_list
          intro a ha b hb'
          rw [classifyStream_index hq a ha, classifyStream_index hq b hb']
        · intro a ha b hb'
          rw [classifyStream_index hq a ha]
          obtain ⟨p, hpmem, hpe⟩ := classifyAll_indices hrest b hb'
          rw [hpe]
          exact hp.1 p hpmem

theorem classifyAll_filter_index {L D : List String} {pairs : List (Nat × ProbedStream)}
    {i : Nat} {s : ProbedStream} {f1 : Bool} {es1 : List OutputStream}
    {f : Bool} {es : List OutputStream}
    (hne : pairs.Pairwise (fun p q => p.1 ≠ q.1))
    (hp : (i, s) ∈ pairs) (hs : classifyStream L D i s = .ok (f1, es1))
    (h : classifyAll L D pairs = .ok (f, es)) :
    es.filter (fun e => e.input_index == i) = es1 := by
  induction pairs generalizing f es with
  | nil => simp at hp
  | cons q rest ih =>
    unfold classifyAll at h
    split at h
    · exact absurd h (by simp)
    · split at h
      · exact absurd h (by simp)
      · rename_i f1' es1' hq r2 f2 es2 hrest
        injection h with h
        injection h with hb he
        subst he
        rw [List.pairwise_cons] at hne
        rw [List.filter_append]
        rcases List.mem_cons.mp hp with hqe | hp'
        · rw [← hqe] at hq
          rw [hs] at hq
          injection hq with hq
          injection hq with hqf hqes
          subst hqes
          have h1 : es1.filter (fun e => e.input_index == i) = es1 := by
            apply List.filter_eq_self.mpr
            intro e he'
            have := classifyStream_index hs e he'
            simp [this]
          have h2 : es2.filter (fun e => e.input_index == i) = [] := by
            apply List.filter_eq_nil_iff.mpr
            intro e he'
            obtain ⟨p, hpmem, hpe⟩ := classifyAll_indices hrest e he'
            have : q.1 ≠ p.1 := hne.1 p hpmem
            rw [← hqe] at this
            simp [hpe]
            exact fun hcon => this (by rw [hcon])
          rw [h1, h2, List.append_nil]
        · have h1 : es1'.filter (fun e => e.input_index == i) = [] := by
            apply List.filter_eq_nil_iff.mpr
            intro e he'
            have hei := classifyStream_index hq e he'
            have : q.1 ≠ i := by
              intro hcon
              exact hne.1 (i, s) hp' (by simp [hcon])
            simp [hei]
            exact fun hcon => this hcon
          rw [h1, List.nil_append]
          exact ih hne.2 hp' hrest

theorem classifyAll_all_false {L D : List String} {pairs : List (Nat × ProbedStream)}
    (hall : ∀ p ∈ pairs, ∃ es1, classifyStream L D p.1 p.2 = .ok (false, es1)) :
    ∃ es, classifyAll L D pairs = .ok (false, es) := by
  induction pairs with
  | nil => exact ⟨[], rfl⟩
  | cons q rest ih =>
    obtain ⟨es1, hq⟩ := hall q (List.mem_cons_self q rest)
    obtain ⟨es2, hrest⟩ := ih (fun p hp => hall p (List.mem_cons_of_mem q hp))
    refine ⟨es1 ++ es2, ?_⟩
    unfold classifyAll
    rw [hq, hrest]
    rfl

theorem classifyAll_first_error {L D : List String} {pairs : List (Nat × ProbedStream)}
    {e0 : Err}
    (hall : ∀ p ∈ pairs, (∃ r, classifyStream L D p.1 p.2 = .ok r) ∨
      classifyStream L D p.1 p.2 = .error e0)
    (hex : ∃ p ∈ pairs, classifyStream L D p.1 p.2 = .error e0) :
    classifyAll L D pairs = .error e0 := by
  induction pairs with
  | nil => simp at hex
  | cons q rest ih =>
    rcases hall q (List.mem_cons_self q rest) with ⟨⟨f1, es1⟩, hq⟩ | hq
    · have hex' : ∃ p ∈ rest, classifyStream L D p.1 p.2 = .error e0 := by
        obtain ⟨p, hp, hpe⟩ := hex
        rcases List.mem_cons.mp hp with rfl | hp'
        · rw [hq] at hpe; exact absurd hpe (by simp)
        · exact ⟨p, hp', hpe⟩
      have := ih (fun p hp => hall p (List.mem_cons_of_mem q hp)) hex'
      unfold classifyAll
      rw [hq, this]
    · unfold classifyAll
      rw [hq]

/-! ### Enumeration and sorting lemmas -/

theorem mem_enumFrom_fst_le {α : Type} {n : Nat} {l : List α} :
    ∀ p ∈ List.enumFrom n l, n ≤ p.1 := by
  induction l generalizing n with
  | nil => simp
  | cons a l ih =>
    intro p hp
    simp only [List.enumFrom_cons] at hp
    rcases List.mem_cons.mp hp with rfl | hp
    · exact Nat.le_refl n
    · exact Nat.le_of_succ_le (ih p hp)

theorem enumFrom_pairwise_lt {α : Type} (n : Nat) (l : List α) :
    (List.enumFrom n l).Pairwise (fun p q => p.1 < q.1) := by
  induction l generalizing n with
  | nil => simp
  | cons a l ih =>
    simp only [List.enumFrom_cons]
    apply List.Pairwise.cons
    · intro q hq
      exact Nat.lt_of_lt_of_le (Nat.lt_succ_self n) (mem_enumFrom_fst_le q hq)
    · exact ih (n + 1)

theorem enum_pairwise_le (l : List ProbedStream) :
    l.enum.Pairwise (fun p q => p.1 ≤ q.1) := by
  have := enumFrom_pairwise_lt 0 l
  rw [List.enum]
  exact this.imp (fun h => Nat.le_of_lt h)

theorem enum_pairwise_ne (l : List ProbedStream) :
    l.enum.Pairwise (fun p q => p.1 ≠ q.1) := by
  have := enumFrom_pairwise_lt 0 l
  rw [List.enum]
  exact this.imp (fun h => Nat.ne_of_lt h)

theorem mem_enum_getD {l : List ProbedStream} {i : Nat} {s : ProbedStream}
    (d : ProbedStream) (h : (i, s) ∈ l.enum) : l.getD i d = s := by
  rw [List.mk_mem_enum_iff_getElem?] at h
  rw [List.getD_eq_getElem?_getD, h]
  rfl

/-- A plan already sorted by `input_index` is unchanged by the stable sort. -/
theorem sortPlan_of_sorted {plan : List OutputStream}
    (h : plan.Pairwise (fun a b => a.input_index ≤ b.input_index)) :
    sortPlan plan = plan :=
  List.Sorted.insertionSort_eq h

/-- Unfolding a successful evaluation: there is a video stream, the
classification fold returns exactly the verdict and the (already sorted, so
untouched by the sort) plan. -/
theorem evaluate_ok_elim {streams : List ProbedStream} {b : Bool}
    {plan : List OutputStream} (h : evaluate streams = .ok (b, plan)) :
    video_streams streams ≠ [] ∧
    classifyAll (subtitle_codecs streams) (default_subtitle_codecs streams)
      streams.enum = .ok (b, plan) ∧
    plan.Pairwise (fun a b => a.input_index ≤ b.input_index) := by
  unfold evaluate at h
  split at h
  · exact Except.noConfusion h
  · rename_i hv
    split at h
    · exact Except.noConfusion h
    · rename_i r f es hca
      rw [Except.ok.injEq, Prod.mk.injEq] at h
      obtain ⟨hb, hplan⟩ := h
      subst hb
      have hsor := classifyAll_sorted (enum_pairwise_le streams) hca
      rw [sortPlan_of_sorted hsor] at hplan
      subst hplan
      refine ⟨?_, hca, hsor⟩
      intro hcon
      rw [hcon] at hv
      simp at hv

/-! ### Argument compilation -/

theorem enumFrom_flatMap_blocks (l : List OutputStream) (n : Nat) :
    (List.enumFrom n l).flatMap
      (fun p => ["-map", "0:" ++ toString p.2.input_index] ++
        p.2.options.map (Arg.render p.1)) = argBlocksFrom n l := by
  induction l generalizing n with
  | nil => rfl
  | cons e rest ih =>
    simp only [List.enumFrom_cons, List.flatMap_cons, argBlocksFrom]
    rw [ih (n + 1)]
    rfl

/-- Claim C7: the compiled token sequence is, for each plan entry in order, a
`-map` stream-selection token referencing the entry's `input_index` followed
by its option tokens, and every `{output_index}` placeholder is rendered with
the entry's 0-based position in the compiled plan, not its source index. -/
theorem compile_args_positional (in_path : String) (plan : List OutputStream) :
    compile_ffmpeg_args in_path plan = compile_ffmpeg_args_indexed in_path plan := by
  unfold compile_ffmpeg_args compile_ffmpeg_args_indexed
  rw [List.enum, enumFrom_flatMap_blocks]

/-! ### Files without video streams -/

/-- Claim C1: a file whose probed stream list has no video stream fails with
the no-video-stream error, no plan is produced, and the file system is left
untouched with no transcode executed. -/
theorem no_video_stream_rejected (streams : List ProbedStream)
    (h : video_streams streams = []) (fs : FS) (in_path out_path temp_path : String)
    (exit_ok : Bool) (content : Nat) :
    evaluate streams = .error .noVideoStream ∧
    handle_file streams fs in_path out_path temp_path exit_ok content =
      .evalError .noVideoStream fs := by
  have he : evaluate streams = .error .noVideoStream := by
    unfold evaluate
    rw [h]
    rfl
  refine ⟨he, ?_⟩
  unfold handle_file
  rw [he]

/-- Witness for C1 at a file holding a single audio stream. -/
theorem no_video_stream_rejected_witness :
    evaluate [⟨"audio", "aac", 0⟩] = .error .noVideoStream ∧
    handle_file [⟨"audio", "aac", 0⟩] (fun _ => none) "a.mp4" "a.mkv" "t.mkv" true 5 =
      .evalError .noVideoStream (fun _ => none) :=
  no_video_stream_rejected [⟨"audio", "aac", 0⟩] (by rfl)
    (fun _ => none) "a.mp4" "a.mkv" "t.mkv" true 5

/-! ### Sortedness and stability of the plan -/

/-- Claim C5: the plan of every accepted evaluation is sorted ascending by
`input_index`, and it equals the emission-order output of the classification
fold, so two entries sharing a source index (subtitle rule 2) keep their
emission order (convert before copy), whatever the input order and rules. -/
theorem plan_sorted_stable {streams : List ProbedStream} {b : Bool}
    {plan : List OutputStream} (h : evaluate streams = .ok (b, plan)) :
    plan.Pairwise (fun a b => a.input_index ≤ b.input_index) ∧
    classifyAll (subtitle_codecs streams) (default_subtitle_codecs streams)
      streams.enum = .ok (b, plan) := by
  obtain ⟨_, hca, hsor⟩ := evaluate_ok_elim h
  exact ⟨hsor, hca⟩

/-- Witness for C5 at a file with one h264 video and one default webvtt
subtitle (two plan entries share index 1, convert before copy). -/
theorem plan_sorted_stable_witness :
    List.Pairwise (fun a b => a.input_index ≤ b.input_index)
      [(⟨0, copyOpts⟩ : OutputStream), ⟨1, srtDefaultOpts⟩, ⟨1, copyClearDefaultOpts⟩] ∧
    classifyAll
      (subtitle_codecs [⟨"video", "h264", 0⟩, ⟨"subtitle", "webvtt", 1⟩])
      (default_subtitle_codecs [⟨"video", "h264", 0⟩, ⟨"subtitle", "webvtt", 1⟩])
      (List.enum [⟨"video", "h264", 0⟩, ⟨"subtitle", "webvtt", 1⟩]) =
      .ok (true, [⟨0, copyOpts⟩, ⟨1, srtDefaultOpts⟩, ⟨1, copyClearDefaultOpts⟩]) :=
  @plan_sorted_stable [⟨"video", "h264", 0⟩, ⟨"subtitle", "webvtt", 1⟩] true
    [⟨0, copyOpts⟩, ⟨1, srtDefaultOpts⟩, ⟨1, copyClearDefaultOpts⟩] rfl

/-! ### The early return when no transform is needed -/

/-- Claim C6: when classification yields `needs_run = false`, `handle_file`
returns immediately: no argument tokens are compiled, the transform step is
not invoked, and the file system is unchanged. -/
theorem no_transform_needed_skips (streams : List ProbedStream)
    (plan : List OutputStream) (h : evaluate streams = .ok (false, plan))
    (fs : FS) (in_path out_path temp_path : String) (exit_ok : Bool) (content : Nat) :
    handle_file streams fs in_path out_path temp_path exit_ok content = .skipped fs := by
  unfold handle_file
  rw [h]
  rfl

/-- Witness for C6 at a file already satisfying the policy. -/
theorem no_transform_needed_skips_witness :
    handle_file [⟨"video", "h264", 0⟩, ⟨"audio", "aac", 0⟩] (fun _ => none)
      "a.mkv" "a.mkv" "t.mkv" true 5 = .skipped (fun _ => none) :=
  no_transform_needed_skips [⟨"video", "h264", 0⟩, ⟨"audio", "aac", 0⟩]
    [⟨0, copyOpts⟩, ⟨1, copyOpts⟩] rfl (fun _ => none) "a.mkv" "a.mkv" "t.mkv" true 5

/-! ### Safety of the transform step -/

/-- Claim C9: if the external transcode exits non-zero, the step fails, the
temporary output is abandoned and the original file (and the output path) are
untouched; on success the replacement exists at the output path; and in every
outcome the original is gone only if the replacement exists, so the source is
never destroyed before a valid replacement exists. -/
theorem transform_preserves_original (fs : FS)
    (in_path out_path temp_path : String) (exit_ok : Bool) (content orig : Nat)
    (h1 : temp_path ≠ in_path) (h2 : temp_path ≠ out_path)
    (h3 : fs in_path = some orig) :
    (exit_ok = false →
      run_transform fs in_path out_path temp_path exit_ok content =
        .transcodeFailure (fsWrite fs temp_path 0) ∧
      fsWrite fs temp_path 0 in_path = some orig ∧
      fsWrite fs temp_path 0 out_path = fs out_path) ∧
    (∀ fs2, run_transform fs in_path out_path temp_path exit_ok content =
        .success fs2 → fs2 out_path = some content) ∧
    (∀ fs2, run_transform fs in_path out_path temp_path exit_ok content =
          .transcodeFailure fs2 ∨
        run_transform fs in_path out_path temp_path exit_ok content = .success fs2 →
      fs2 in_path = none → fs2 out_path = some content) := by
  have hw_in : fsWrite fs temp_path 0 in_path = some orig := by
    unfold fsWrite
    rw [if_neg (fun hc => h1 hc.symm), h3]
  have hw_out : fsWrite fs temp_path 0 out_path = fs out_path := by
    unfold fsWrite
    rw [if_neg (fun hc => h2 hc.symm)]
  have hmove_out :
      fsMove (fsWrite (fsWrite fs temp_path 0) temp_path content) temp_path out_path
        out_path = some content := by
    unfold fsMove fsWrite
    rw [if_neg (fun hc => h2 hc.symm), if_pos rfl, if_pos rfl]
  cases exit_ok with
  | false =>
    refine ⟨fun _ => ⟨rfl, hw_in, hw_out⟩, ?_, ?_⟩
    · intro fs2 hr
      exact absurd hr (by unfold run_transform; simp)
    · intro fs2 hr hnone
      rcases hr with hr | hr
      · have : fs2 = fsWrite fs temp_path 0 := by
          unfold run_transform at hr
          simp at hr
          exact hr.symm
        rw [this, hw_in] at hnone
        exact Option.noConfusion hnone
      · exact absurd hr (by unfold run_transform; simp)
  | true =>
    have hsucc : ∀ fs2,
        run_transform fs in_path out_path temp_path true content = .success fs2 →
        fs2 out_path = some content := by
      intro fs2 hr
      unfold run_transform at hr
      rw [if_pos rfl] at hr
      dsimp only at hr
      split at hr
      · rename_i hcond
        injection hr with hr
        subst hr
        unfold fsRemove
        rw [if_neg (fun hc => hcond.1 hc.symm)]
        exact hmove_out
      · injection hr with hr
        subst hr
        exact hmove_out
    refine ⟨fun hc => Bool.noConfusion hc, hsucc, ?_⟩
    intro fs2 hr _
    rcases hr with hr | hr
    · unfold run_transform at hr
      rw [if_pos rfl] at hr
      dsimp only at hr
      split at hr
      · exact TransformOutcome.noConfusion hr
      · exact TransformOutcome.noConfusion hr
    · exact hsucc fs2 hr

/-- Witness for C9 at a concrete file system and distinct paths. -/
theorem transform_preserves_original_witness :
    (false = false →
      run_transform (fsWrite (fun _ => none) "a.avi" 7) "a.avi" "a.mkv" "t.mkv" false 5 =
        .transcodeFailure (fsWrite (fsWrite (fun _ => none) "a.avi" 7) "t.mkv" 0) ∧
      fsWrite (fsWrite (fun _ => none) "a.avi" 7) "t.mkv" 0 "a.avi" = some 7 ∧
      fsWrite (fsWrite (fun _ => none) "a.avi" 7) "t.mkv" 0 "a.mkv" =
        fsWrite (fun _ => none) "a.avi" 7 "a.mkv") ∧
    (∀ fs2, run_transform (fsWrite (fun _ => none) "a.avi" 7) "a.avi" "a.mkv" "t.mkv" false 5 =
        .success fs2 → fs2 "a.mkv" = some 5) ∧
    (∀ fs2, run_transform (fsWrite (fun _ => none) "a.avi" 7) "a.avi" "a.mkv" "t.mkv" false 5 =
          .transcodeFailure fs2 ∨
        run_transform (fsWrite (fun _ => none) "a.avi" 7) "a.avi" "a.mkv" "t.mkv" false 5 =
          .success fs2 →
      fs2 "a.avi" = none → fs2 "a.mkv" = some 5) :=
  transform_preserves_original (fsWrite (fun _ => none) "a.avi" 7)
    "a.avi" "a.mkv" "t.mkv" false 5 7 (by decide) (by decide)
    (by unfold fsWrite; rw [if_pos rfl])

/-! ### The video stream policy -/

theorem classifyStream_video_transcode {i : Nat} {s : ProbedStream}
    (hv : s.codec_type = "video")
    (hc : s.codec_name = "vc1" ∨ s.codec_name = "hevc" ∨ s.codec_name = "vp9" ∨
      s.codec_name = "av1") (L D : List String) :
    classifyStream L D i s = .ok (true, [⟨i, transcodeVideoOpts⟩]) := by
  rcases hc with h | h | h | h <;> (unfold classifyStream; rw [hv, h]; rfl)

theorem classifyStream_video_copy {i : Nat} {s : ProbedStream}
    (hv : s.codec_type = "video")
    (hc : s.codec_name = "h264" ∨ s.codec_name = "mjpeg" ∨ s.codec_name = "png")
    (L D : List String) :
    classifyStream L D i s = .ok (false, [⟨i, copyOpts⟩]) := by
  rcases hc with h | h | h <;> (unfold classifyStream; rw [hv, h]; rfl)

theorem classifyStream_video_unhandled {i : Nat} {s : ProbedStream}
    (hv : s.codec_type = "video")
    (hc : ¬(s.codec_name = "vc1" ∨ s.codec_name = "hevc" ∨ s.codec_name = "vp9" ∨
      s.codec_name = "av1" ∨ s.codec_name = "h264" ∨ s.codec_name = "mjpeg" ∨
      s.codec_name = "png")) (L D : List String) :
    classifyStream L D i s = .error .unhandledVideoCodec := by
  push_neg at hc
  obtain ⟨h1, h2, h3, h4, h5, h6, h7⟩ := hc
  unfold classifyStream
  rw [hv]
  simp only [beq_iff_eq, Bool.or_eq_true, if_true]
  rw [if_neg (by simp [h1, h2, h3, h4]), if_neg (by simp [h5, h6, h7])]

/-- Claim C2: a video stream with codec in {vc1, hevc, vp9, av1} contributes a
transcode entry (libx264, constant-rate-factor 20, medium preset, default flag
set) and forces `needs_run`; with codec in {h264, mjpeg, png} it contributes a
plain copy entry (no disposition change) without forcing; any other video
codec raises the unhandled-video-codec error and aborts the file. -/
theorem video_stream_policy (i : Nat) (s : ProbedStream)
    (hv : s.codec_type = "video") :
    ((s.codec_name = "vc1" ∨ s.codec_name = "hevc" ∨ s.codec_name = "vp9" ∨
        s.codec_name = "av1") →
      (∀ L D, classifyStream L D i s = .ok (true, [⟨i, transcodeVideoOpts⟩])) ∧
      ∀ streams b plan, (i, s) ∈ streams.enum → evaluate streams = .ok (b, plan) →
        b = true ∧ (⟨i, transcodeVideoOpts⟩ : OutputStream) ∈ plan) ∧
    ((s.codec_name = "h264" ∨ s.codec_name = "mjpeg" ∨ s.codec_name = "png") →
      ∀ L D, classifyStream L D i s = .ok (false, [⟨i, copyOpts⟩])) ∧
    (¬(s.codec_name = "vc1" ∨ s.codec_name = "hevc" ∨ s.codec_name = "vp9" ∨
        s.codec_name = "av1" ∨ s.codec_name = "h264" ∨ s.codec_name = "mjpeg" ∨
        s.codec_name = "png") →
      (∀ L D, classifyStream L D i s = .error .unhandledVideoCodec) ∧
      ∀ streams, (i, s) ∈ streams.enum → ∀ b plan, evaluate streams ≠ .ok (b, plan)) := by
  refine ⟨?_, fun hc => classifyStream_video_copy hv hc, ?_⟩
  · intro hc
    refine ⟨classifyStream_video_transcode hv hc, ?_⟩
    intro streams b plan hmem hev
    obtain ⟨_, hca, _⟩ := evaluate_ok_elim hev
    have hcls := classifyStream_video_transcode (i := i) hv hc
      (subtitle_codecs streams) (default_subtitle_codecs streams)
    refine ⟨classifyAll_force hmem hcls hca, ?_⟩
    have hfil := classifyAll_filter_index (enum_pairwise_ne streams) hmem hcls hca
    have : (⟨i, transcodeVideoOpts⟩ : OutputStream) ∈
        plan.filter (fun e => e.input_index == i) := by
      rw [hfil]
      exact List.mem_singleton_self _
    exact List.mem_of_mem_filter this
  · intro hc
    refine ⟨classifyStream_video_unhandled hv hc, ?_⟩
    intro streams hmem b plan hev
    obtain ⟨_, hca, _⟩ := evaluate_ok_elim hev
    exact classifyAll_error_of_mem hmem
      (classifyStream_video_unhandled hv hc
        (subtitle_codecs streams) (default_subtitle_codecs streams)) b plan hca

/-- Witness for C2 at an hevc video stream. -/
theorem video_stream_policy_witness :
    (((⟨"video", "hevc", 0⟩ : ProbedStream).codec_name = "vc1" ∨
        (⟨"video", "hevc", 0⟩ : ProbedStream).codec_name = "hevc" ∨
        (⟨"video", "hevc", 0⟩ : ProbedStream).codec_name = "vp9" ∨
        (⟨"video", "hevc", 0⟩ : ProbedStream).codec_name = "av1") →
      (∀ L D, classifyStream L D 0 ⟨"video", "hevc", 0⟩ =
        .ok (true, [⟨0, transcodeVideoOpts⟩])) ∧
      ∀ streams b plan, (0, (⟨"video", "hevc", 0⟩ : ProbedStream)) ∈ streams.enum →
        evaluate streams = .ok (b, plan) →
        b = true ∧ (⟨0, transcodeVideoOpts⟩ : OutputStream) ∈ plan) ∧
    (((⟨"video", "hevc", 0⟩ : ProbedStream).codec_name = "h264" ∨
        (⟨"video", "hevc", 0⟩ : ProbedStream).codec_name = "mjpeg" ∨
        (⟨"video", "hevc", 0⟩ : ProbedStream).codec_name = "png") →
      ∀ L D, classifyStream L D 0 ⟨"video", "hevc", 0⟩ = .ok (false, [⟨0, copyOpts⟩])) ∧
    (¬((⟨"video", "hevc", 0⟩ : ProbedStream).codec_name = "vc1" ∨
        (⟨"video", "hevc", 0⟩ : ProbedStream).codec_name = "hevc" ∨
        (⟨"video", "hevc", 0⟩ : ProbedStream).codec_name = "vp9" ∨
        (⟨"video", "hevc", 0⟩ : ProbedStream).codec_name = "av1" ∨
        (⟨"video", "hevc", 0⟩ : ProbedStream).codec_name = "h264" ∨
        (⟨"video", "hevc", 0⟩ : ProbedStream).codec_name = "mjpeg" ∨
        (⟨"video", "hevc", 0⟩ : ProbedStream).codec_name = "png") →
      (∀ L D, classifyStream L D 0 ⟨"video", "hevc", 0⟩ = .error .unhandledVideoCodec) ∧
      ∀ streams, (0, (⟨"video", "hevc", 0⟩ : ProbedStream)) ∈ streams.enum →
        ∀ b plan, evaluate streams ≠ .ok (b, plan)) :=
  video_stream_policy 0 ⟨"video", "hevc", 0⟩ rfl

/-! ### The subtitle rules -/

theorem mem_of_mem_enum {l : List ProbedStream} {i : Nat} {s : ProbedStream}
    (h : (i, s) ∈ l.enum) : s ∈ l := by
  rw [List.mk_mem_enum_iff_getElem?] at h
  obtain ⟨hlt, he⟩ := List.getElem?_eq_some.mp h
  exact he ▸ List.getElem_mem hlt

theorem mem_enum_of_mem {l : List ProbedStream} {s : ProbedStream} (h : s ∈ l) :
    ∃ i, (i, s) ∈ l.enum := by
  obtain ⟨i, hlt, hi⟩ := List.getElem_of_mem h
  refine ⟨i, List.mk_mem_enum_iff_getElem?.mpr ?_⟩
  rw [List.getElem?_eq_getElem hlt]
  exact congrArg some hi

theorem mem_subtitle_streams {streams : List ProbedStream} {s : ProbedStream}
    (hm : s ∈ streams) (hsub : s.codec_type = "subtitle") :
    s ∈ subtitle_streams streams := by
  unfold subtitle_streams
  rw [List.mem_filter]
  exact ⟨hm, by rw [hsub]; rfl⟩

theorem codec_map_eq_singleton {l : List ProbedStream} {c : String}
    (h : l.map (fun s => s.codec_name) = [c]) :
    ∃ s0, l = [s0] ∧ s0.codec_name = c := by
  cases l with
  | nil => exact absurd h (by simp)
  | cons a t =>
    cases t with
    | nil =>
      simp only [List.map_cons, List.map_nil, List.cons.injEq, and_true] at h
      exact ⟨a, rfl, h⟩
    | cons b t2 => exact absurd h (by simp)

theorem codec_map_eq_pair {l : List ProbedStream} {c1 c2 : String}
    (h : l.map (fun s => s.codec_name) = [c1, c2]) :
    ∃ s1 s2, l = [s1, s2] ∧ s1.codec_name = c1 ∧ s2.codec_name = c2 := by
  cases l with
  | nil => exact absurd h (by simp)
  | cons a t =>
    cases t with
    | nil => exact absurd h (by simp)
    | cons b t2 =>
      cases t2 with
      | nil =>
        simp only [List.map_cons, List.map_nil, List.cons.injEq, and_true] at h
        exact ⟨a, b, rfl, h.1, h.2⟩
      | cons d t3 => exact absurd h (by simp)

/-- Claim C4: in a file whose only subtitle stream is webvtt or ass, that
stream yields exactly two plan entries at its source index: first the
convert-to-srt entry with default flag set, then the copy entry with default
flag cleared; and `needs_run` is forced. -/
theorem single_webvtt_or_ass_two_entries {streams : List ProbedStream} {b : Bool}
    {plan : List OutputStream} {c : String}
    (hev : evaluate streams = .ok (b, plan))
    (hL : subtitle_codecs streams = [c]) (hc : c = "webvtt" ∨ c = "ass")
    {i : Nat} {s : ProbedStream} (hmem : (i, s) ∈ streams.enum)
    (hsub : s.codec_type = "subtitle") :
    b = true ∧
    plan.filter (fun e => e.input_index == i) =
      [⟨i, srtDefaultOpts⟩, ⟨i, copyClearDefaultOpts⟩] := by
  obtain ⟨_, hca, _⟩ := evaluate_ok_elim hev
  obtain ⟨s0, hl0, hc0⟩ := codec_map_eq_singleton hL
  have hsmem : s ∈ subtitle_streams streams :=
    mem_subtitle_streams (mem_of_mem_enum hmem) hsub
  rw [hl0] at hsmem
  have hs0 : s = s0 := by simpa using hsmem
  have hcn : s.codec_name = c := by rw [hs0, hc0]
  have hcls : classifyStream (subtitle_codecs streams) (default_subtitle_codecs streams)
      i s = .ok (true, [⟨i, srtDefaultOpts⟩, ⟨i, copyClearDefaultOpts⟩]) := by
    unfold classifyStream
    rw [hsub, hcn, hL]
    rcases hc with h | h <;> (subst h; rfl)
  exact ⟨classifyAll_force hmem hcls hca,
    classifyAll_filter_index (enum_pairwise_ne streams) hmem hcls hca⟩

/-- Witness for C4 at the spec's Scenario C. -/
theorem single_webvtt_or_ass_two_entries_witness :
    true = true ∧
    List.filter (fun e => e.input_index == 1)
      [(⟨0, copyOpts⟩ : OutputStream), ⟨1, srtDefaultOpts⟩, ⟨1, copyClearDefaultOpts⟩] =
      [⟨1, srtDefaultOpts⟩, ⟨1, copyClearDefaultOpts⟩] :=
  @single_webvtt_or_ass_two_entries
    [⟨"video", "h264", 0⟩, ⟨"subtitle", "webvtt", 1⟩] true
    [⟨0, copyOpts⟩, ⟨1, srtDefaultOpts⟩, ⟨1, copyClearDefaultOpts⟩] "webvtt"
    rfl rfl (Or.inl rfl) 1 ⟨"subtitle", "webvtt", 1⟩ (by decide) rfl

/-- Claim C3 counterexample: a file whose subtitle codec multiset is
{webvtt, subrip} with default multiset {webvtt}, but probed in the order
[subrip, webvtt], is not copied as the claim states: the code compares the
codec lists by exact (order-sensitive) equality, no rule matches, and
evaluation raises the unhandled-subtitle-combination error instead. -/
theorem subtitle_pair_any_order_counterexample :
    evaluate [⟨"video", "h264", 0⟩, ⟨"subtitle", "subrip", 0⟩,
      ⟨"subtitle", "webvtt", 1⟩] = .error .unhandledSubtitleCodecs := rfl

/-- Claim C3 as amended: when the subtitle codec list *in probe order* is
exactly [webvtt, subrip] with default-subtitle codec list [webvtt], or
exactly [ass, subrip] with default list [ass], every subtitle stream is
copied with the default flag set iff that stream's codec is subrip (cleared
otherwise), and `needs_run` is forced. -/
theorem subtitle_pair_in_order_copied {streams : List ProbedStream} {b : Bool}
    {plan : List OutputStream}
    (hev : evaluate streams = .ok (b, plan))
    (hcase : (subtitle_codecs streams = ["webvtt", "subrip"] ∧
        default_subtitle_codecs streams = ["webvtt"]) ∨
      (subtitle_codecs streams = ["ass", "subrip"] ∧
        default_subtitle_codecs streams = ["ass"])) :
    b = true ∧
    ∀ i s, (i, s) ∈ streams.enum → s.codec_type = "subtitle" →
      plan.filter (fun e => e.input_index == i) =
        [⟨i, copyWithDisposition
          (if s.codec_name == "subrip" then "+default" else "-default")⟩] := by
  obtain ⟨_, hca, _⟩ := evaluate_ok_elim hev
  have hcls : ∀ i s, (i, s) ∈ streams.enum → s.codec_type = "subtitle" →
      classifyStream (subtitle_codecs streams) (default_subtitle_codecs streams) i s =
        .ok (true, [⟨i, copyWithDisposition
          (if s.codec_name == "subrip" then "+default" else "-default")⟩]) := by
    intro i s hmem hsub
    have hne : s.codec_name ≠ "mov_text" := by
      have hsmem : s.codec_name ∈ subtitle_codecs streams := by
        unfold subtitle_codecs
        exact List.mem_map_of_mem _ (mem_subtitle_streams (mem_of_mem_enum hmem) hsub)
      rcases hcase with ⟨hL, _⟩ | ⟨hL, _⟩ <;> rw [hL] at hsmem <;>
        (intro hcon; rw [hcon] at hsmem; simp at hsmem)
    unfold classifyStream
    rcases hcase with ⟨hL, hD⟩ | ⟨hL, hD⟩ <;>
      (rw [hsub, hL, hD]
       simp only [beq_iff_eq, if_neg hne]
       rfl)
  constructor
  · have hpair : ∃ c1 c2,
        (subtitle_streams streams).map (fun s => s.codec_name) = [c1, c2] := by
      rcases hcase with ⟨hL, _⟩ | ⟨hL, _⟩
      · exact ⟨_, _, hL⟩
      · exact ⟨_, _, hL⟩
    obtain ⟨c1, c2, hL2⟩ := hpair
    obtain ⟨s1, s2, hl, hc1, hc2⟩ := codec_map_eq_pair hL2
    have hs1 : s1 ∈ streams := by
      have : s1 ∈ subtitle_streams streams := by rw [hl]; simp
      exact List.mem_of_mem_filter this
    have hsub1 : s1.codec_type = "subtitle" := by
      have : s1 ∈ subtitle_streams streams := by rw [hl]; simp
      unfold subtitle_streams at this
      rw [List.mem_filter] at this
      simpa using this.2
    obtain ⟨i, hi⟩ := mem_enum_of_mem hs1
    exact classifyAll_force hi (hcls i s1 hi hsub1) hca
  · intro i s hmem hsub
    exact classifyAll_filter_index (enum_pairwise_ne streams) hmem
      (hcls i s hmem hsub) hca

/-- Witness for the amended C3 at a webvtt-default-then-subrip file. -/
theorem subtitle_pair_in_order_copied_witness :
    true = true ∧
    ∀ i s, (i, s) ∈ (List.enum [(⟨"video", "h264", 0⟩ : ProbedStream),
        ⟨"subtitle", "webvtt", 1⟩, ⟨"subtitle", "subrip", 0⟩]) →
      s.codec_type = "subtitle" →
      List.filter (fun e => e.input_index == i)
        [(⟨0, copyOpts⟩ : OutputStream),
          ⟨1, copyWithDisposition "-default"⟩, ⟨2, copyWithDisposition "+default"⟩] =
        [⟨i, copyWithDisposition
          (if s.codec_name == "subrip" then "+default" else "-default")⟩] :=
  @subtitle_pair_in_order_copied
    [⟨"video", "h264", 0⟩, ⟨"subtitle", "webvtt", 1⟩, ⟨"subtitle", "subrip", 0⟩] true
    [⟨0, copyOpts⟩, ⟨1, copyWithDisposition "-default"⟩, ⟨2, copyWithDisposition "+default"⟩]
    rfl (Or.inl ⟨rfl, rfl⟩)

/-! ### Per-type classification facts and the mixed mov_text rejection -/

theorem classifyStream_audio {L D : List String} {i : Nat} {s : ProbedStream}
    (ht : s.codec_type = "audio") :
    classifyStream L D i s = .ok (false, [⟨i, copyOpts⟩]) := by
  unfold classifyStream
  rw [ht]
  rfl

theorem classifyStream_attachment {L D : List String} {i : Nat} {s : ProbedStream}
    (ht : s.codec_type = "attachment") :
    classifyStream L D i s = .ok (false, [⟨i, copyOpts⟩]) := by
  unfold classifyStream
  rw [ht]
  rfl

theorem classifyStream_data_bin {L D : List String} {i : Nat} {s : ProbedStream}
    (ht : s.codec_type = "data") (hcn : s.codec_name = "bin_data") :
    classifyStream L D i s = .ok (true, []) := by
  unfold classifyStream
  rw [ht, hcn]
  rfl

theorem classifyStream_mov_text {L D : List String} {i : Nat} {s : ProbedStream}
    (ht : s.codec_type = "subtitle") (hcn : s.codec_name = "mov_text") :
    classifyStream L D i s = .ok (true, [⟨i, srtDefaultOpts⟩]) := by
  unfold classifyStream
  rw [ht, hcn]
  rfl

theorem mem_orderedInsertStr {a b : String} {l : List String} :
    b ∈ orderedInsertStr a l ↔ b = a ∨ b ∈ l := by
  induction l with
  | nil => simp [orderedInsertStr]
  | cons c t ih =>
    unfold orderedInsertStr
    split
    · simp [List.mem_cons]
    · simp only [List.mem_cons, ih]
      tauto

theorem mem_sortedStrs {b : String} {l : List String} :
    b ∈ sortedStrs l ↔ b ∈ l := by
  induction l with
  | nil => simp [sortedStrs]
  | cons c t ih =>
    unfold sortedStrs
    rw [mem_orderedInsertStr, ih, List.mem_cons]

/-- A non-mov_text subtitle stream in a file whose subtitle codec list
contains mov_text matches none of the subtitle rules. -/
theorem classifyStream_subtitle_unhandled {L D : List String} {i : Nat}
    {s : ProbedStream} (ht : s.codec_type = "subtitle")
    (hc : s.codec_name ≠ "mov_text") (hmov : "mov_text" ∈ L) :
    classifyStream L D i s = .error .unhandledSubtitleCodecs := by
  have hcm : (s.codec_name == "mov_text") = false := by simp [hc]
  have hc2 : (L == ["webvtt"] || L == ["ass"]) = false := by
    simp only [Bool.or_eq_false_iff, beq_eq_false_iff_ne]
    constructor <;> (intro hcon; rw [hcon] at hmov; simp at hmov)
  have hc3 : ((L == ["webvtt", "subrip"] && D == ["webvtt"]) ||
      (L == ["ass", "subrip"] && D == ["ass"])) = false := by
    simp only [Bool.or_eq_false_iff, Bool.and_eq_false_iff, beq_eq_false_iff_ne]
    constructor
    · left
      intro hcon
      rw [hcon] at hmov
      simp at hmov
    · left
      intro hcon
      rw [hcon] at hmov
      simp at hmov
  have hsor : "mov_text" ∈ sortedStrs L := mem_sortedStrs.mpr hmov
  have hc4 : (((sortedStrs L == ["subrip", "webvtt"] ||
      sortedStrs L == ["ass", "subrip"]) ||
      L == ["subrip"]) && D == ["subrip"]) = false := by
    simp only [Bool.and_eq_false_iff]
    left
    simp only [Bool.or_eq_false_iff, beq_eq_false_iff_ne]
    refine ⟨⟨?_, ?_⟩, ?_⟩
    · intro hcon; rw [hcon] at hsor; simp at hsor
    · intro hcon; rw [hcon] at hsor; simp at hsor
    · intro hcon; rw [hcon] at hmov; simp at hmov
  have hc5 : (L.all (fun c => c == "subrip" || c == "hdmv_pgs_subtitle")) = false := by
    rw [Bool.eq_false_iff]
    intro hall
    rw [List.all_eq_true] at hall
    exact absurd (hall _ hmov) (by simp)
  unfold classifyStream
  rw [ht, hcm, hc2, hc3, hc4, hc5]
  rfl

/-- Claim C10: a file containing a mov_text subtitle stream together with a
subtitle stream of a different codec (all other streams being handled kinds)
is aborted with the unhandled-subtitle-combination error: the non-mov_text
subtitle stream matches no subtitle rule, even though all-mov_text files
convert successfully. -/
theorem mov_text_mixed_rejected {streams : List ProbedStream}
    (hv : video_streams streams ≠ [])
    (htypes : ∀ s ∈ streams, s.codec_type = "video" ∨ s.codec_type = "audio" ∨
      s.codec_type = "subtitle" ∨ s.codec_type = "attachment" ∨ s.codec_type = "data")
    (hvid : ∀ s ∈ streams, s.codec_type = "video" →
      (s.codec_name = "vc1" ∨ s.codec_name = "hevc" ∨ s.codec_name = "vp9" ∨
        s.codec_name = "av1") ∨
      (s.codec_name = "h264" ∨ s.codec_name = "mjpeg" ∨ s.codec_name = "png"))
    (hdata : ∀ s ∈ streams, s.codec_type = "data" → s.codec_name = "bin_data")
    {s1 s2 : ProbedStream} (h1 : s1 ∈ streams) (h1t : s1.codec_type = "subtitle")
    (h1c : s1.codec_name = "mov_text")
    (h2 : s2 ∈ streams) (h2t : s2.codec_type = "subtitle")
    (h2c : s2.codec_name ≠ "mov_text") :
    evaluate streams = .error .unhandledSubtitleCodecs := by
  have hmov : "mov_text" ∈ subtitle_codecs streams := by
    unfold subtitle_codecs
    exact h1c ▸ List.mem_map_of_mem _ (mem_subtitle_streams h1 h1t)
  have hdi : ∀ p ∈ streams.enum,
      (∃ r, classifyStream (subtitle_codecs streams) (default_subtitle_codecs streams)
        p.1 p.2 = .ok r) ∨
      classifyStream (subtitle_codecs streams) (default_subtitle_codecs streams)
        p.1 p.2 = .error .unhandledSubtitleCodecs := by
    intro p hp
    have hm := mem_of_mem_enum hp
    rcases htypes p.2 hm with ht | ht | ht | ht | ht
    · rcases hvid p.2 hm ht with hset | hset
      · exact Or.inl ⟨_, classifyStream_video_transcode ht hset _ _⟩
      · exact Or.inl ⟨_, classifyStream_video_copy ht hset _ _⟩
    · exact Or.inl ⟨_, classifyStream_audio ht⟩
    · by_cases hcn : p.2.codec_name = "mov_text"
      · exact Or.inl ⟨_, classifyStream_mov_text ht hcn⟩
      · exact Or.inr (classifyStream_subtitle_unhandled ht hcn hmov)
    · exact Or.inl ⟨_, classifyStream_attachment ht⟩
    · exact Or.inl ⟨_, classifyStream_data_bin ht (hdata p.2 hm ht)⟩
  have hex : ∃ p ∈ streams.enum,
      classifyStream (subtitle_codecs streams) (default_subtitle_codecs streams)
        p.1 p.2 = .error .unhandledSubtitleCodecs := by
    obtain ⟨i, hi⟩ := mem_enum_of_mem h2
    exact ⟨(i, s2), hi, classifyStream_subtitle_unhandled h2t h2c hmov⟩
  have hca := classifyAll_first_error hdi hex
  have hg : ((video_streams streams).length == 0) = false := by
    rw [beq_eq_false_iff_ne]
    intro hcon
    exact hv (List.length_eq_zero.mp hcon)
  unfold evaluate
  rw [hg, hca]
  rfl

/-- Witness for C10 at a mov_text-plus-subrip file. -/
theorem mov_text_mixed_rejected_witness :
    evaluate [⟨"video", "h264", 0⟩, ⟨"subtitle", "mov_text", 0⟩,
      ⟨"subtitle", "subrip", 0⟩] = .error .unhandledSubtitleCodecs :=
  mov_text_mixed_rejected (by decide) (by decide) (by decide) (by decide)
    (List.mem_cons_of_mem _ (List.mem_cons_self _ _)) rfl rfl
    (List.mem_cons_of_mem _ (List.mem_cons_of_mem _ (List.mem_cons_self _ _))) rfl
    (by decide)

theorem applyEntry_transcode {streams : List ProbedStream} {i : Nat}
    {s : ProbedStream} (hget : streams.getD i ⟨"", "", 0⟩ = s) :
    applyEntry streams ⟨i, transcodeVideoOpts⟩ = ⟨s.codec_type, "h264", 1⟩ := by
  dsimp only [applyEntry]
  rw [hget]
  rfl

theorem applyEntry_copy {streams : List ProbedStream} {i : Nat}
    {s : ProbedStream} (hget : streams.getD i ⟨"", "", 0⟩ = s) :
    applyEntry streams ⟨i, copyOpts⟩ = s := by
  dsimp only [applyEntry]
  rw [hget]
  rfl

theorem applyEntry_srtDefault {streams : List ProbedStream} {i : Nat}
    {s : ProbedStream} (hget : streams.getD i ⟨"", "", 0⟩ = s) :
    applyEntry streams ⟨i, srtDefaultOpts⟩ = ⟨s.codec_type, "subrip", 1⟩ := by
  dsimp only [applyEntry]
  rw [hget]
  rfl

theorem applyEntry_copyClear {streams : List ProbedStream} {i : Nat}
    {s : ProbedStream} (hget : streams.getD i ⟨"", "", 0⟩ = s) :
    applyEntry streams ⟨i, copyClearDefaultOpts⟩ = ⟨s.codec_type, s.codec_name, 0⟩ := by
  dsimp only [applyEntry]
  rw [hget]
  rfl

theorem applyEntry_copyDispSet {streams : List ProbedStream} {i : Nat}
    {s : ProbedStream} (hget : streams.getD i ⟨"", "", 0⟩ = s) :
    applyEntry streams ⟨i, copyWithDisposition "+default"⟩ =
      ⟨s.codec_type, s.codec_name, 1⟩ := by
  dsimp only [applyEntry]
  rw [hget]
  rfl

theorem applyEntry_copyDispClear {streams : List ProbedStream} {i : Nat}
    {s : ProbedStream} (hget : streams.getD i ⟨"", "", 0⟩ = s) :
    applyEntry streams ⟨i, copyWithDisposition "-default"⟩ =
      ⟨s.codec_type, s.codec_name, 0⟩ := by
  dsimp only [applyEntry]
  rw [hget]
  rfl

/-- The per-entry post-transform streams of a stream's classification output
are exactly `postOfStream` of that stream. -/
theorem applyEntry_classify {L D : List String} {i : Nat} {s : ProbedStream}
    {streams : List ProbedStream} {f : Bool} {es : List OutputStream}
    (hget : streams.getD i ⟨"", "", 0⟩ = s)
    (h : classifyStream L D i s = .ok (f, es)) :
    es.map (applyEntry streams) = postOfStream L D s := by
  unfold classifyStream at h
  unfold postOfStream
  split_ifs at h ⊢ <;>
    first
    | exact Except.noConfusion h
    | (rw [Except.ok.injEq, Prod.mk.injEq] at h
       obtain ⟨h1, h2⟩ := h
       subst h2
       simp [applyEntry_transcode hget, applyEntry_copy hget,
         applyEntry_srtDefault hget, applyEntry_copyClear hget,
         applyEntry_copyDispSet hget, applyEntry_copyDispClear hget])

/-- Mapping `applyEntry` over a successful classification fold gives the
concatenation of the per-stream post-transform contributions. -/
theorem applyPlan_classifyAll {L D : List String} {streams : List ProbedStream}
    {pairs : List (Nat × ProbedStream)} {f : Bool} {es : List OutputStream}
    (hget : ∀ p ∈ pairs, streams.getD p.1 ⟨"", "", 0⟩ = p.2)
    (h : classifyAll L D pairs = .ok (f, es)) :
    es.map (applyEntry streams) = pairs.flatMap (fun p => postOfStream L D p.2) := by
  induction pairs generalizing f es with
  | nil =>
    unfold classifyAll at h
    rw [Except.ok.injEq, Prod.mk.injEq] at h
    obtain ⟨h1, h2⟩ := h
    subst h2
    rfl
  | cons q rest ih =>
    unfold classifyAll at h
    split at h
    · exact Except.noConfusion h
    · split at h
      · exact Except.noConfusion h
      · rename_i f1 es1 hq r2 f2 es2 hrest
        rw [Except.ok.injEq, Prod.mk.injEq] at h
        obtain ⟨h1, h2⟩ := h
        subst h2
        rw [List.map_append, List.flatMap_cons]
        rw [applyEntry_classify (hget q (List.mem_cons_self q rest)) hq]
        rw [ih (fun p hp => hget p (List.mem_cons_of_mem q hp)) hrest]

theorem enumFrom_flatMap_snd {β : Type} (g : ProbedStream → List β)
    (l : List ProbedStream) (n : Nat) :
    (List.enumFrom n l).flatMap (fun p => g p.2) = l.flatMap g := by
  induction l generalizing n with
  | nil => rfl
  | cons a t ih =>
    simp only [List.enumFrom_cons, List.flatMap_cons]
    rw [ih (n + 1)]

theorem flatMap_filter_comm {p : ProbedStream → Bool}
    {g : ProbedStream → List ProbedStream}
    (hg : ∀ a, (g a).filter p = if p a then g a else [])
    (l : List ProbedStream) :
    (l.flatMap g).filter p = (l.filter p).flatMap g := by
  induction l with
  | nil => rfl
  | cons a t ih =>
    rw [List.flatMap_cons, List.filter_append, ih, hg a, List.filter_cons]
    split
    · rw [List.flatMap_cons]
    · rw [List.nil_append]

theorem flatMap_congr_mem {α β : Type} {l : List α} {f g : α → List β}
    (h : ∀ a ∈ l, f a = g a) : l.flatMap f = l.flatMap g := by
  induction l with
  | nil => rfl
  | cons a t ih =>
    rw [List.flatMap_cons, List.flatMap_cons, h a (List.mem_cons_self a t),
      ih (fun b hb => h b (List.mem_cons_of_mem a hb))]

theorem flatMap_singleton_id {α : Type} (l : List α) :
    l.flatMap (fun a => [a]) = l := by
  induction l with
  | nil => rfl
  | cons a t ih => rw [List.flatMap_cons, ih]; rfl

/-- `postOfStream` preserves the stream kind: its filter by any codec type
keeps everything when the source stream has that type and nothing otherwise. -/
theorem postOfStream_filter_type (L D : List String) (s : ProbedStream) (t : String) :
    (postOfStream L D s).filter (fun x => x.codec_type == t) =
      if s.codec_type == t then postOfStream L D s else [] := by
  unfold postOfStream
  split_ifs <;> simp_all

/-- A subtitle stream reclassifies as a non-forcing copy whenever rules 1-3
fail and rule 4 or rule 5 holds (both branches emit the same copy entry). -/
theorem classifyStream_subtitle_copy45 {L D : List String} {i : Nat}
    {s : ProbedStream} (ht : s.codec_type = "subtitle")
    (hcm : s.codec_name ≠ "mov_text")
    (hc2 : (L == ["webvtt"] || L == ["ass"]) = false)
    (hc3 : ((L == ["webvtt", "subrip"] && D == ["webvtt"]) ||
        (L == ["ass", "subrip"] && D == ["ass"])) = false)
    (hc45 : ((((sortedStrs L == ["subrip", "webvtt"] ||
        sortedStrs L == ["ass", "subrip"]) || L == ["subrip"]) && D == ["subrip"]) ||
        L.all (fun c => c == "subrip" || c == "hdmv_pgs_subtitle")) = true) :
    classifyStream L D i s = .ok (false, [⟨i, copyOpts⟩]) := by
  have hcmb : (s.codec_name == "mov_text") = false := by simp [hcm]
  unfold classifyStream
  rw [ht, hcmb, hc2, hc3]
  rw [Bool.or_eq_true] at hc45
  rcases hc45 with h4 | h5
  · rw [h4]
    rfl
  · cases hc4 : (((sortedStrs L == ["subrip", "webvtt"] ||
        sortedStrs L == ["ass", "subrip"]) || L == ["subrip"]) && D == ["subrip"]) with
    | true => rfl
    | false => rw [h5]; rfl

/-- A non-mov_text subtitle stream errors when all four global rules fail. -/
theorem classifyStream_subtitle_error_of_conds {L D : List String} {i : Nat}
    {s : ProbedStream} (ht : s.codec_type = "subtitle")
    (hcm : s.codec_name ≠ "mov_text")
    (hc2 : (L == ["webvtt"] || L == ["ass"]) = false)
    (hc3 : ((L == ["webvtt", "subrip"] && D == ["webvtt"]) ||
        (L == ["ass", "subrip"] && D == ["ass"])) = false)
    (hc4 : (((sortedStrs L == ["subrip", "webvtt"] ||
        sortedStrs L == ["ass", "subrip"]) || L == ["subrip"]) && D == ["subrip"]) = false)
    (hc5 : (L.all (fun c => c == "subrip" || c == "hdmv_pgs_subtitle")) = false) :
    classifyStream L D i s = .error .unhandledSubtitleCodecs := by
  have hcmb : (s.codec_name == "mov_text") = false := by simp [hcm]
  unfold classifyStream
  rw [ht, hcmb, hc2, hc3, hc4, hc5]
  rfl

/-- Every stream of the post-transform set is a copy-eligible video stream,
an audio stream, a non-mov_text subtitle stream, or an attachment. -/
theorem postOfStream_elem_cases {L D : List String} {s s2 : ProbedStream}
    (hs2 : s2 ∈ postOfStream L D s) :
    (s2.codec_type = "video" ∧ (s2.codec_name = "h264" ∨ s2.codec_name = "mjpeg" ∨
      s2.codec_name = "png")) ∨
    s2.codec_type = "audio" ∨
    (s2.codec_type = "subtitle" ∧ s2.codec_name ≠ "mov_text") ∨
    s2.codec_type = "attachment" := by
  unfold postOfStream at hs2
  split_ifs at hs2 <;>
    simp only [List.mem_singleton, List.mem_cons, List.not_mem_nil, or_false] at hs2
  all_goals try rcases hs2 with rfl | rfl
  all_goals try simp_all
  all_goals tauto

/-- Given the three rerun conditions of the post file's codec lists, every
post-transform stream reclassifies as a non-forcing copy. -/
theorem postOfStream_rerun {L D L2 D2 : List String} {s : ProbedStream}
    (hc2 : (L2 == ["webvtt"] || L2 == ["ass"]) = false)
    (hc3 : ((L2 == ["webvtt", "subrip"] && D2 == ["webvtt"]) ||
        (L2 == ["ass", "subrip"] && D2 == ["ass"])) = false)
    (hc45 : ((((sortedStrs L2 == ["subrip", "webvtt"] ||
        sortedStrs L2 == ["ass", "subrip"]) || L2 == ["subrip"]) && D2 == ["subrip"]) ||
        L2.all (fun c => c == "subrip" || c == "hdmv_pgs_subtitle")) = true) :
    ∀ s2 ∈ postOfStream L D s, ∀ i2,
      classifyStream L2 D2 i2 s2 = .ok (false, [⟨i2, copyOpts⟩]) := by
  intro s2 hs2 i2
  rcases postOfStream_elem_cases hs2 with ⟨ht, hcn⟩ | ht | ⟨ht, hcn⟩ | ht
  · exact classifyStream_video_copy ht hcn L2 D2
  · exact classifyStream_audio ht
  · exact classifyStream_subtitle_copy45 ht hcn hc2 hc3 hc45
  · exact classifyStream_attachment ht

theorem postOfStream_video_transcode {L D : List String} {s : ProbedStream}
    (ht : s.codec_type = "video")
    (hset : s.codec_name = "vc1" ∨ s.codec_name = "hevc" ∨ s.codec_name = "vp9" ∨
      s.codec_name = "av1") :
    postOfStream L D s = [⟨s.codec_type, "h264", 1⟩] := by
  rcases hset with h | h | h | h <;> (unfold postOfStream; rw [ht, h]; rfl)

theorem postOfStream_video_copy {L D : List String} {s : ProbedStream}
    (ht : s.codec_type = "video")
    (hset : s.codec_name = "h264" ∨ s.codec_name = "mjpeg" ∨ s.codec_name = "png") :
    postOfStream L D s = [s] := by
  rcases hset with h | h | h <;> (unfold postOfStream; rw [ht, h]; rfl)

theorem postOfStream_audio {L D : List String} {s : ProbedStream}
    (ht : s.codec_type = "audio") : postOfStream L D s = [s] := by
  unfold postOfStream
  rw [ht]
  rfl

theorem postOfStream_attachment {L D : List String} {s : ProbedStream}
    (ht : s.codec_type = "attachment") : postOfStream L D s = [s] := by
  unfold postOfStream
  rw [ht]
  rfl

theorem postOfStream_mov {L D : List String} {s : ProbedStream}
    (ht : s.codec_type = "subtitle") (hcn : s.codec_name = "mov_text") :
    postOfStream L D s = [⟨s.codec_type, "subrip", 1⟩] := by
  unfold postOfStream
  rw [ht, hcn]
  rfl

theorem postOfStream_rule2 {L D : List String} {s : ProbedStream}
    (ht : s.codec_type = "subtitle") (hcm : s.codec_name ≠ "mov_text")
    (h2 : (L == ["webvtt"] || L == ["ass"]) = true) :
    postOfStream L D s =
      [⟨s.codec_type, "subrip", 1⟩, ⟨s.codec_type, s.codec_name, 0⟩] := by
  have hcmb : (s.codec_name == "mov_text") = false := by simp [hcm]
  unfold postOfStream
  rw [ht, hcmb, h2]
  rfl

theorem postOfStream_rule3 {L D : List String} {s : ProbedStream}
    (ht : s.codec_type = "subtitle") (hcm : s.codec_name ≠ "mov_text")
    (hc2 : (L == ["webvtt"] || L == ["ass"]) = false)
    (h3 : ((L == ["webvtt", "subrip"] && D == ["webvtt"]) ||
        (L == ["ass", "subrip"] && D == ["ass"])) = true) :
    postOfStream L D s = [⟨s.codec_type, s.codec_name,
      if s.codec_name == "subrip" then 1 else 0⟩] := by
  have hcmb : (s.codec_name == "mov_text") = false := by simp [hcm]
  unfold postOfStream
  rw [ht, hcmb, hc2, h3]
  rfl

theorem postOfStream_rule45 {L D : List String} {s : ProbedStream}
    (ht : s.codec_type = "subtitle") (hcm : s.codec_name ≠ "mov_text")
    (hc2 : (L == ["webvtt"] || L == ["ass"]) = false)
    (hc3 : ((L == ["webvtt", "subrip"] && D == ["webvtt"]) ||
        (L == ["ass", "subrip"] && D == ["ass"])) = false)
    (h45 : ((((sortedStrs L == ["subrip", "webvtt"] ||
        sortedStrs L == ["ass", "subrip"]) || L == ["subrip"]) && D == ["subrip"]) ||
        L.all (fun c => c == "subrip" || c == "hdmv_pgs_subtitle")) = true) :
    postOfStream L D s = [s] := by
  have hcmb : (s.codec_name == "mov_text") = false := by simp [hcm]
  unfold postOfStream
  rw [ht, hcmb, hc2, hc3]
  rw [Bool.or_eq_true] at h45
  rcases h45 with h4 | h5
  · rw [h4]
    rfl
  · cases hc4 : (((sortedStrs L == ["subrip", "webvtt"] ||
        sortedStrs L == ["ass", "subrip"]) || L == ["subrip"]) && D == ["subrip"]) with
    | true => rfl
    | false => rw [h5]; rfl

/-- A successfully classified video stream has a handled codec. -/
theorem classifyStream_video_codec {L D : List String} {i : Nat} {s : ProbedStream}
    (ht : s.codec_type = "video") {r : Bool × List OutputStream}
    (h : classifyStream L D i s = .ok r) :
    (s.codec_name = "vc1" ∨ s.codec_name = "hevc" ∨ s.codec_name = "vp9" ∨
      s.codec_name = "av1") ∨
    (s.codec_name = "h264" ∨ s.codec_name = "mjpeg" ∨ s.codec_name = "png") := by
  by_contra hcon
  rw [classifyStream_video_unhandled ht (by tauto) L D] at h
  exact Except.noConfusion h

/-- A successfully classified subtitle stream is mov_text when all four
global subtitle rules fail. -/
theorem classifyStream_subtitle_mov_of_conds {L D : List String} {i : Nat}
    {s : ProbedStream} (ht : s.codec_type = "subtitle")
    (hc2 : (L == ["webvtt"] || L == ["ass"]) = false)
    (hc3 : ((L == ["webvtt", "subrip"] && D == ["webvtt"]) ||
        (L == ["ass", "subrip"] && D == ["ass"])) = false)
    (hc4 : (((sortedStrs L == ["subrip", "webvtt"] ||
        sortedStrs L == ["ass", "subrip"]) || L == ["subrip"]) && D == ["subrip"]) = false)
    (hc5 : (L.all (fun c => c == "subrip" || c == "hdmv_pgs_subtitle")) = false)
    {r : Bool × List OutputStream} (h : classifyStream L D i s = .ok r) :
    s.codec_name = "mov_text" := by
  by_contra hcm
  rw [classifyStream_subtitle_error_of_conds ht hcm hc2 hc3 hc4 hc5] at h
  exact Except.noConfusion h

theorem subtitle_streams_post (L D : List String) (streams : List ProbedStream) :
    subtitle_streams (streams.flatMap (postOfStream L D)) =
      (subtitle_streams streams).flatMap (postOfStream L D) := by
  unfold subtitle_streams
  exact flatMap_filter_comm (fun a => postOfStream_filter_type L D a "subtitle") streams

theorem flatMap_singleton_map {α β : Type} (g : α → β) (l : List α) :
    l.flatMap (fun a => [g a]) = l.map g := by
  induction l with
  | nil => rfl
  | cons a t ih => rw [List.flatMap_cons, ih]; rfl

/-- The three rerun conditions hold for any all-subrip codec list. -/
theorem conds_of_all_subrip {X Y : List String} (hall : ∀ c ∈ X, c = "subrip") :
    ((X == ["webvtt"] || X == ["ass"]) = false) ∧
    (((X == ["webvtt", "subrip"] && Y == ["webvtt"]) ||
      (X == ["ass", "subrip"] && Y == ["ass"])) = false) ∧
    (((((sortedStrs X == ["subrip", "webvtt"] || sortedStrs X == ["ass", "subrip"]) ||
        X == ["subrip"]) && Y == ["subrip"]) ||
      X.all (fun c => c == "subrip" || c == "hdmv_pgs_subtitle")) = true) := by
  refine ⟨?_, ?_, ?_⟩
  · simp only [Bool.or_eq_false_iff, beq_eq_false_iff_ne]
    constructor
    · intro hcon
      rw [hcon] at hall
      have := hall "webvtt" (by simp)
      simp at this
    · intro hcon
      rw [hcon] at hall
      have := hall "ass" (by simp)
      simp at this
  · simp only [Bool.or_eq_false_iff, Bool.and_eq_false_iff, beq_eq_false_iff_ne]
    constructor
    · left
      intro hcon
      rw [hcon] at hall
      have := hall "webvtt" (by simp)
      simp at this
    · left
      intro hcon
      rw [hcon] at hall
      have := hall "ass" (by simp)
      simp at this
  · rw [Bool.or_eq_true]
    right
    rw [List.all_eq_true]
    intro c hc
    rw [hall c hc]
    rfl

theorem subtitle_streams_type {streams : List ProbedStream} {s : ProbedStream}
    (hs : s ∈ subtitle_streams streams) : s.codec_type = "subtitle" := by
  unfold subtitle_streams at hs
  simpa using (List.mem_filter.mp hs).2

theorem subtitle_codecs_mem {streams : List ProbedStream} {s : ProbedStream}
    (hs : s ∈ subtitle_streams streams) :
    s.codec_name ∈ subtitle_codecs streams := by
  unfold subtitle_codecs
  exact List.mem_map_of_mem _ hs


theorem subtitle_codecs_eq (l : List ProbedStream) :
    subtitle_codecs l = (subtitle_streams l).map (fun s => s.codec_name) := rfl

theorem default_subtitle_codecs_eq (l : List ProbedStream) :
    default_subtitle_codecs l =
      ((subtitle_streams l).filter (fun s => s.disposition_default == 1)).map
        (fun s => s.codec_name) := rfl

/-- Rerun conditions after the single-webvtt/ass rule fired. -/
theorem rerunConds_case2 {streams : List ProbedStream} {c : String}
    (hc : c = "webvtt" ∨ c = "ass") (hL : subtitle_codecs streams = [c]) :
    rerunConds (streams.flatMap
      (postOfStream (subtitle_codecs streams) (default_subtitle_codecs streams))) := by
  have hL' : (subtitle_streams streams).map (fun s => s.codec_name) = [c] := hL
  obtain ⟨s0, hsubs, hcn0⟩ := codec_map_eq_singleton hL'
  have hm0 : s0 ∈ subtitle_streams streams := by
    rw [hsubs]
    exact List.mem_cons_self _ _
  have hct0 : s0.codec_type = "subtitle" := subtitle_streams_type hm0
  have hcm0 : s0.codec_name ≠ "mov_text" := by
    rw [hcn0]
    rcases hc with h | h <;> (rw [h]; decide)
  have hB2 : (subtitle_codecs streams == ["webvtt"] ||
      subtitle_codecs streams == ["ass"]) = true := by
    rcases hc with h | h <;> (rw [hL, h]; rfl)
  have hpost0 := postOfStream_rule2 (D := default_subtitle_codecs streams)
    hct0 hcm0 hB2
  rw [hct0, hcn0] at hpost0
  have hsubpost : subtitle_streams (streams.flatMap
      (postOfStream (subtitle_codecs streams) (default_subtitle_codecs streams))) =
      [⟨"subtitle", "subrip", 1⟩, ⟨"subtitle", c, 0⟩] := by
    rw [subtitle_streams_post, hsubs]
    simp [hpost0]
  have hL2 : subtitle_codecs (streams.flatMap
      (postOfStream (subtitle_codecs streams) (default_subtitle_codecs streams))) =
      ["subrip", c] := by
    rw [subtitle_codecs_eq, hsubpost]
    rfl
  have hD2 : default_subtitle_codecs (streams.flatMap
      (postOfStream (subtitle_codecs streams) (default_subtitle_codecs streams))) =
      ["subrip"] := by
    rw [default_subtitle_codecs_eq, hsubpost]
    rfl
  unfold rerunConds
  rw [hL2, hD2]
  rcases hc with h | h <;> (rw [h]; exact ⟨by rfl, by rfl, by decide⟩)

/-- Rerun conditions after the webvtt/ass-plus-subrip default-promotion rule
fired. -/
theorem rerunConds_case3 {streams : List ProbedStream}
    (hB2 : (subtitle_codecs streams == ["webvtt"] ||
      subtitle_codecs streams == ["ass"]) = false)
    (hB3 : ((subtitle_codecs streams == ["webvtt", "subrip"] &&
        default_subtitle_codecs streams == ["webvtt"]) ||
      (subtitle_codecs streams == ["ass", "subrip"] &&
        default_subtitle_codecs streams == ["ass"])) = true) :
    rerunConds (streams.flatMap
      (postOfStream (subtitle_codecs streams) (default_subtitle_codecs streams))) := by
  have hB3b := hB3
  rw [Bool.or_eq_true] at hB3b
  have hcase : ∃ c, (c = "webvtt" ∨ c = "ass") ∧
      subtitle_codecs streams = [c, "subrip"] := by
    rcases hB3b with h | h
    · rw [Bool.and_eq_true] at h
      exact ⟨"webvtt", Or.inl rfl, by exact eq_of_beq h.1⟩
    · rw [Bool.and_eq_true] at h
      exact ⟨"ass", Or.inr rfl, by exact eq_of_beq h.1⟩
  obtain ⟨c, hc, hL⟩ := hcase
  have hL' : (subtitle_streams streams).map (fun s => s.codec_name) = [c, "subrip"] := hL
  obtain ⟨s1, s2, hsubs, hcn1, hcn2⟩ := codec_map_eq_pair hL'
  have hm1 : s1 ∈ subtitle_streams streams := by
    rw [hsubs]
    simp
  have hm2 : s2 ∈ subtitle_streams streams := by
    rw [hsubs]
    simp
  have hct1 := subtitle_streams_type hm1
  have hct2 := subtitle_streams_type hm2
  have hcm1 : s1.codec_name ≠ "mov_text" := by
    rw [hcn1]
    rcases hc with h | h <;> (rw [h]; decide)
  have hcm2 : s2.codec_name ≠ "mov_text" := by
    rw [hcn2]
    decide
  have hcsub : (c == "subrip") = false := by
    rcases hc with h | h <;> (rw [h]; rfl)
  have hpost1 := postOfStream_rule3 hct1 hcm1 hB2 hB3
  rw [hct1, hcn1] at hpost1
  simp only [hcsub, Bool.false_eq_true, if_false] at hpost1
  have hpost2 := postOfStream_rule3 hct2 hcm2 hB2 hB3
  rw [hct2, hcn2] at hpost2
  simp only [beq_self_eq_true, if_true] at hpost2
  have hsubpost : subtitle_streams (streams.flatMap
      (postOfStream (subtitle_codecs streams) (default_subtitle_codecs streams))) =
      [⟨"subtitle", c, 0⟩, ⟨"subtitle", "subrip", 1⟩] := by
    rw [subtitle_streams_post, hsubs]
    simp [hpost1, hpost2]
  have hL2 : subtitle_codecs (streams.flatMap
      (postOfStream (subtitle_codecs streams) (default_subtitle_codecs streams))) =
      [c, "subrip"] := by
    rw [subtitle_codecs_eq, hsubpost]
    rfl
  have hD2 : default_subtitle_codecs (streams.flatMap
      (postOfStream (subtitle_codecs streams) (default_subtitle_codecs streams))) =
      ["subrip"] := by
    rw [default_subtitle_codecs_eq, hsubpost]
    rfl
  unfold rerunConds
  rw [hL2, hD2]
  rcases hc with h | h <;> (rw [h]; exact ⟨by rfl, by rfl, by decide⟩)

/-- Rerun conditions when rules 4/5 fired for every subtitle stream: the
post-transform subtitle set is unchanged, so the same non-forcing rules fire
again. -/
theorem rerunConds_case45 {streams : List ProbedStream}
    (hB2 : (subtitle_codecs streams == ["webvtt"] ||
      subtitle_codecs streams == ["ass"]) = false)
    (hB3 : ((subtitle_codecs streams == ["webvtt", "subrip"] &&
        default_subtitle_codecs streams == ["webvtt"]) ||
      (subtitle_codecs streams == ["ass", "subrip"] &&
        default_subtitle_codecs streams == ["ass"])) = false)
    (hB45 : ((((sortedStrs (subtitle_codecs streams) == ["subrip", "webvtt"] ||
        sortedStrs (subtitle_codecs streams) == ["ass", "subrip"]) ||
        subtitle_codecs streams == ["subrip"]) &&
        default_subtitle_codecs streams == ["subrip"]) ||
      (subtitle_codecs streams).all
        (fun c => c == "subrip" || c == "hdmv_pgs_subtitle")) = true)
    (hnomov : ∀ s ∈ subtitle_streams streams, s.codec_name ≠ "mov_text") :
    rerunConds (streams.flatMap
      (postOfStream (subtitle_codecs streams) (default_subtitle_codecs streams))) := by
  have hpost_each : ∀ s ∈ subtitle_streams streams,
      postOfStream (subtitle_codecs streams) (default_subtitle_codecs streams) s =
        [s] := fun s hs =>
    postOfStream_rule45 (subtitle_streams_type hs) (hnomov s hs) hB2 hB3 hB45
  have hsubpost : subtitle_streams (streams.flatMap
      (postOfStream (subtitle_codecs streams) (default_subtitle_codecs streams))) =
      subtitle_streams streams := by
    rw [subtitle_streams_post, flatMap_congr_mem hpost_each, flatMap_singleton_id]
  have hL2 : subtitle_codecs (streams.flatMap
      (postOfStream (subtitle_codecs streams) (default_subtitle_codecs streams))) =
      subtitle_codecs streams := by
    rw [subtitle_codecs_eq, hsubpost]
    rfl
  have hD2 : default_subtitle_codecs (streams.flatMap
      (postOfStream (subtitle_codecs streams) (default_subtitle_codecs streams))) =
      default_subtitle_codecs streams := by
    rw [default_subtitle_codecs_eq, hsubpost]
    rfl
  unfold rerunConds
  rw [hL2, hD2]
  exact ⟨hB2, hB3, hB45⟩

/-- Rerun conditions when every subtitle stream is mov_text: the post set is
all default subrip tracks, handled by rule 4 or 5 without forcing. -/
theorem rerunConds_mov {streams : List ProbedStream}
    (hmovall : ∀ s ∈ subtitle_streams streams, s.codec_name = "mov_text") :
    rerunConds (streams.flatMap
      (postOfStream (subtitle_codecs streams) (default_subtitle_codecs streams))) := by
  have hpost_each : ∀ s ∈ subtitle_streams streams,
      postOfStream (subtitle_codecs streams) (default_subtitle_codecs streams) s =
        [⟨s.codec_type, "subrip", 1⟩] := fun s hs =>
    postOfStream_mov (subtitle_streams_type hs) (hmovall s hs)
  have hsubpost : subtitle_streams (streams.flatMap
      (postOfStream (subtitle_codecs streams) (default_subtitle_codecs streams))) =
      (subtitle_streams streams).map (fun s => ⟨s.codec_type, "subrip", 1⟩) := by
    rw [subtitle_streams_post, flatMap_congr_mem hpost_each, flatMap_singleton_map]
  have hall2 : ∀ c ∈ subtitle_codecs (streams.flatMap
      (postOfStream (subtitle_codecs streams) (default_subtitle_codecs streams))),
      c = "subrip" := by
    intro c hc
    rw [subtitle_codecs_eq, hsubpost, List.map_map] at hc
    obtain ⟨a, _, rfl⟩ := List.mem_map.mp hc
    rfl
  unfold rerunConds
  exact conds_of_all_subrip hall2

/-- Claim C8 (idempotence): for every stream list that evaluation accepts with
`needs_run = true`, re-running the classification on the post-transform stream
set described by the plan (transcoded video now copy-eligible h264, converted
subtitles now subrip with the planned default dispositions, dropped data
streams absent) yields `needs_run = false`. -/
theorem evaluate_idempotent {streams : List ProbedStream} {plan : List OutputStream}
    (h : evaluate streams = .ok (true, plan)) :
    ∃ plan2, evaluate (applyPlan streams plan) = .ok (false, plan2) := by
  obtain ⟨hv, hca, hsor⟩ := evaluate_ok_elim h
  have hall := classifyAll_ok_forall hca
  have hpost : applyPlan streams plan = streams.flatMap
      (postOfStream (subtitle_codecs streams) (default_subtitle_codecs streams)) := by
    unfold applyPlan
    rw [applyPlan_classifyAll (fun p hp => mem_enum_getD _ hp) hca, List.enum,
      enumFrom_flatMap_snd]
  have hOK : rerunConds (streams.flatMap
      (postOfStream (subtitle_codecs streams) (default_subtitle_codecs streams))) := by
    cases hB2 : (subtitle_codecs streams == ["webvtt"] ||
        subtitle_codecs streams == ["ass"]) with
    | true =>
      rw [Bool.or_eq_true] at hB2
      rcases hB2 with hw | hw
      · exact rerunConds_case2 (Or.inl rfl) (by exact eq_of_beq hw)
      · exact rerunConds_case2 (Or.inr rfl) (by exact eq_of_beq hw)
    | false =>
    cases hB3 : ((subtitle_codecs streams == ["webvtt", "subrip"] &&
        default_subtitle_codecs streams == ["webvtt"]) ||
      (subtitle_codecs streams == ["ass", "subrip"] &&
        default_subtitle_codecs streams == ["ass"])) with
    | true => exact rerunConds_case3 hB2 hB3
    | false =>
    cases hB4 : (((sortedStrs (subtitle_codecs streams) == ["subrip", "webvtt"] ||
        sortedStrs (subtitle_codecs streams) == ["ass", "subrip"]) ||
        subtitle_codecs streams == ["subrip"]) &&
        default_subtitle_codecs streams == ["subrip"]) with
    | true =>
      have hnomov : ∀ s ∈ subtitle_streams streams, s.codec_name ≠ "mov_text" := by
        have hB4b := hB4
        rw [Bool.and_eq_true] at hB4b
        obtain ⟨h45, hD4⟩ := hB4b
        rw [Bool.or_eq_true] at h45
        intro s hs
        have hcL : s.codec_name ∈ subtitle_codecs streams := subtitle_codecs_mem hs
        rcases h45 with h45 | hLs
        · rw [Bool.or_eq_true] at h45
          rcases h45 with hso | hso
          · have hmem : s.codec_name ∈ sortedStrs (subtitle_codecs streams) :=
              mem_sortedStrs.mpr hcL
            rw [eq_of_beq hso] at hmem
            simp at hmem
            rcases hmem with hx | hx <;> (rw [hx]; decide)
          · have hmem : s.codec_name ∈ sortedStrs (subtitle_codecs streams) :=
              mem_sortedStrs.mpr hcL
            rw [eq_of_beq hso] at hmem
            simp at hmem
            rcases hmem with hx | hx <;> (rw [hx]; decide)
        · rw [eq_of_beq hLs] at hcL
          simp at hcL
          rw [hcL]
          decide
      exact rerunConds_case45 hB2 hB3
        (by rw [Bool.or_eq_true]; exact Or.inl hB4) hnomov
    | false =>
    cases hB5 : ((subtitle_codecs streams).all
        (fun c => c == "subrip" || c == "hdmv_pgs_subtitle")) with
    | true =>
      have hnomov : ∀ s ∈ subtitle_streams streams, s.codec_name ≠ "mov_text" := by
        intro s hs
        have hcL : s.codec_name ∈ subtitle_codecs streams := subtitle_codecs_mem hs
        have hB5b := hB5
        rw [List.all_eq_true] at hB5b
        have hp := hB5b _ hcL
        rw [Bool.or_eq_true] at hp
        rcases hp with hx | hx <;> (rw [eq_of_beq hx]; decide)
      exact rerunConds_case45 hB2 hB3
        (by rw [Bool.or_eq_true]; exact Or.inr hB5) hnomov
    | false =>
      have hmovall : ∀ s ∈ subtitle_streams streams, s.codec_name = "mov_text" := by
        intro s hs
        have hsm : s ∈ streams := List.mem_of_mem_filter hs
        obtain ⟨i, hi⟩ := mem_enum_of_mem hsm
        obtain ⟨r, hr⟩ := hall (i, s) hi
        exact classifyStream_subtitle_mov_of_conds (subtitle_streams_type hs)
          hB2 hB3 hB4 hB5 hr
      exact rerunConds_mov hmovall
  obtain ⟨hc2', hc3', hc45'⟩ := hOK
  have hall2 : ∀ p ∈ (streams.flatMap (postOfStream (subtitle_codecs streams)
      (default_subtitle_codecs streams))).enum,
      ∃ es, classifyStream
        (subtitle_codecs (streams.flatMap (postOfStream (subtitle_codecs streams)
          (default_subtitle_codecs streams))))
        (default_subtitle_codecs (streams.flatMap (postOfStream (subtitle_codecs streams)
          (default_subtitle_codecs streams))))
        p.1 p.2 = .ok (false, es) := by
    intro p hp
    obtain ⟨s, hs, hs2⟩ := List.mem_flatMap.mp (mem_of_mem_enum hp)
    exact ⟨_, postOfStream_rerun hc2' hc3' hc45' p.2 hs2 p.1⟩
  obtain ⟨es2, hca2⟩ := classifyAll_all_false hall2
  obtain ⟨v, hvmem⟩ := List.exists_mem_of_ne_nil _ hv
  have hvs : v ∈ streams := List.mem_of_mem_filter hvmem
  have hvt : v.codec_type = "video" := by
    unfold video_streams at hvmem
    simpa using (List.mem_filter.mp hvmem).2
  obtain ⟨iv, hiv⟩ := mem_enum_of_mem hvs
  obtain ⟨rv, hrv⟩ := hall (iv, v) hiv
  have hvpost : ∃ v2, v2 ∈ postOfStream (subtitle_codecs streams)
      (default_subtitle_codecs streams) v ∧ v2.codec_type = "video" := by
    rcases classifyStream_video_codec hvt hrv with hset | hset
    · exact ⟨⟨v.codec_type, "h264", 1⟩,
        by rw [postOfStream_video_transcode hvt hset]; exact List.mem_cons_self _ _, hvt⟩
    · exact ⟨v,
        by rw [postOfStream_video_copy hvt hset]; exact List.mem_cons_self _ _, hvt⟩
  obtain ⟨v2, hv2mem, hv2t⟩ := hvpost
  have hguard2 : ((video_streams (streams.flatMap (postOfStream
      (subtitle_codecs streams) (default_subtitle_codecs streams)))).length == 0)
      = false := by
    rw [beq_eq_false_iff_ne]
    intro hcon
    have hv2 : v2 ∈ video_streams (streams.flatMap (postOfStream
        (subtitle_codecs streams) (default_subtitle_codecs streams))) := by
      unfold video_streams
      rw [List.mem_filter]
      exact ⟨List.mem_flatMap.mpr ⟨v, hvs, hv2mem⟩, by rw [hv2t]; rfl⟩
    rw [List.length_eq_zero.mp hcon] at hv2
    exact absurd hv2 (List.not_mem_nil v2)
  refine ⟨sortPlan es2, ?_⟩
  rw [hpost]
  unfold evaluate
  rw [hguard2, hca2]
  rfl

/-- Witness for C8 at a single-hevc-video file. -/
theorem evaluate_idempotent_witness :
    ∃ plan2, evaluate (applyPlan [⟨"video", "hevc", 0⟩] [⟨0, transcodeVideoOpts⟩]) =
      .ok (false, plan2) :=
  @evaluate_idempotent [⟨"video", "hevc", 0⟩] [⟨0, transcodeVideoOpts⟩] rfl
